import Mathlib

/-!
Verification of the ragdoll composite nutrition model.

This file is a shallow embedding, in Lean 4, of the core data model of the
ragdoll repository: `Amount` (src/ragdoll/amount.py), `Nutrient` and
`Nutrients` (src/ragdoll/nutrient.py and the revision embedded in
src/ragdoll/composite.py), and the `Component` hierarchy
(src/ragdoll/composite.py).  Python floats are embedded as exact rationals
(`ℚ`); the float NaN produced by one caught division-by-zero is embedded as
`Option ℚ` with `none` for NaN.  A raised Python exception is embedded as an
`Except` error value; Python functions that may raise return
`Except PyErr α`.  Where the two source revisions of the same class differ
(nutrient.py versus composite.py), both are embedded, with the revision named
in the definition's suffix.
-/

namespace Ragdoll

/-- Kinds of Python exceptions raised by the embedded code.  `recursionError`
models non-termination of the mutually recursive component merge (Python's
`RecursionError`), surfaced when the fuel of the embedding runs out. -/
inductive PyErr
  | typeError
  | valueError
  | assertionError
  | zeroDivisionError
  | keyError
  | attributeError
  | recursionError
deriving DecidableEq, Repr

/-! ## Amount (src/ragdoll/amount.py) -/

/-- The units listed in `mass_conversion_dict` and `length_conversion_dict`
(amount.py lines 17-23). -/
inductive MUnit
  | g
  | mg
  | ug
  | kg
  | m
  | cm
  | mm
deriving DecidableEq, Repr

/-- The two dimensions keyed in `conversion_dict` (amount.py lines 24-25). -/
inductive Dim
  | mass
  | length
deriving DecidableEq, Repr

/-- `find_type` (amount.py lines 29-37): the dimension whose conversion dict
contains the unit.  With the unit type closed, the `TypeError` branch for an
unknown unit is unreachable. -/
def MUnit.dim : MUnit → Dim
  | .g => .mass
  | .mg => .mass
  | .ug => .mass
  | .kg => .mass
  | .m => .length
  | .cm => .length
  | .mm => .length

/-- The scale factor of each unit relative to the base unit of its dimension,
from `mass_conversion_dict` and `length_conversion_dict` (amount.py
lines 17-23). -/
def MUnit.factor : MUnit → ℚ
  | .g => 1
  | .mg => 1/1000
  | .ug => 1/1000000
  | .kg => 1000
  | .m => 1
  | .cm => 1/100
  | .mm => 1/1000

/-- `Amount.__init__` (amount.py lines 59-64): a value and a unit;
`value_type` is recomputed from the unit, so it is not stored. -/
structure Amount where
  value : ℚ
  unit : MUnit
deriving DecidableEq, Repr

/-- `find_target_unit` (amount.py lines 39-46): the unit of whichever operand
has the larger (or, on a tie, the first operand's) conversion factor. -/
def find_target_unit (amtA amtB : Amount) : MUnit :=
  if amtB.unit.factor ≤ amtA.unit.factor then amtA.unit else amtB.unit

/-- `Amount.convert` (amount.py lines 67-80): raises `TypeError` when the
target unit is of a different dimension, otherwise rescales the value by the
ratio of the conversion factors. -/
def Amount.convert (a : Amount) (target_unit : MUnit) : Except PyErr Amount :=
  if a.unit.dim ≠ target_unit.dim then .error .typeError
  else .ok ⟨a.value * (a.unit.factor / target_unit.factor), target_unit⟩

/-- `Amount.__type_check` (amount.py lines 168-176): the second operand must
be an `Amount` (always true in the embedding) of the same dimension. -/
def Amount.type_check (a other : Amount) : Except PyErr Unit :=
  if a.unit.dim ≠ other.unit.dim then .error .typeError else .ok ()

/-- `Amount.__add__` (amount.py lines 83-99): type check, convert both
operands to the target unit, add the converted values. -/
def Amount.add (a other : Amount) : Except PyErr Amount := do
  a.type_check other
  let target_unit := find_target_unit a other
  let new_self ← a.convert target_unit
  let new_other ← other.convert target_unit
  .ok ⟨new_self.value + new_other.value, target_unit⟩

/-- `Amount.__sub__` (amount.py lines 101-117): like `__add__` with the
converted values subtracted. -/
def Amount.sub (a other : Amount) : Except PyErr Amount := do
  a.type_check other
  let target_unit := find_target_unit a other
  let new_self ← a.convert target_unit
  let new_other ← other.convert target_unit
  .ok ⟨new_self.value - new_other.value, target_unit⟩

/-- `Amount.__mul__` (amount.py lines 119-128): scalar multiplication; the
scalar type check always passes in the embedding. -/
def Amount.mul (a : Amount) (scalar : ℚ) : Except PyErr Amount :=
  .ok ⟨a.value * scalar, a.unit⟩

/-- The scalar branch of `Amount.__truediv__` (amount.py lines 138-141):
plain division of the value; Python raises `ZeroDivisionError` on a zero
scalar. -/
def Amount.truediv_scalar (a : Amount) (other : ℚ) : Except PyErr Amount :=
  if other = 0 then .error .zeroDivisionError
  else .ok ⟨a.value / other, a.unit⟩

/-- The `Amount` branch of `Amount.__truediv__` (amount.py lines 143-155):
type check, convert both operands to the target unit, divide the converted
values; Python raises `ZeroDivisionError` when the converted divisor value is
zero.  The result is a bare ratio, not an `Amount`. -/
def Amount.truediv_amount (a other : Amount) : Except PyErr ℚ := do
  a.type_check other
  let target_unit := find_target_unit a other
  let new_self ← a.convert target_unit
  let new_other ← other.convert target_unit
  if new_other.value = 0 then .error .zeroDivisionError
  else .ok (new_self.value / new_other.value)

/-- The physical value an `Amount` denotes, in the base unit of its
dimension.  Used to state unit-independent ("as physical value") claims. -/
def Amount.phys (a : Amount) : ℚ := a.value * a.unit.factor

/-! ## Nutrient (src/ragdoll/nutrient.py lines 42-544 and the revision in
src/ragdoll/composite.py lines 27-526) -/

/-- `Nutrient.__init__` (nutrient.py lines 56-93): the provenance `source`
set is embedded as a list of strings (set semantics are irrelevant to the
claims; combination unions the lists). -/
structure Nutrient where
  name : String
  value : ℚ
  unit : String
  abbr : String
  source : List String
  name_source : String
deriving DecidableEq, Repr

/-- Membership of a string in a list of strings. -/
def containsStr (l : List String) (x : String) : Bool :=
  match l with
  | [] => false
  | y :: rest => if x = y then true else containsStr rest x

/-- Union of two provenance source sets, as performed by
`source = self.source.copy(); source.update(other.source)`. -/
def sourceUnion (s t : List String) : List String :=
  s ++ t.filter (fun x => ¬ containsStr s x)

/-- `Nutrient.__type_test` (nutrient.py lines 500-544, identically
composite.py lines 482-526): raises `ValueError` unless name, abbreviation
and unit all agree (the non-`Nutrient` `TypeError` branch is unreachable in
the embedding). -/
def Nutrient.type_test (a other : Nutrient) : Except PyErr Unit :=
  if a.name ≠ other.name then .error .valueError
  else if a.abbr ≠ other.abbr then .error .valueError
  else if a.unit ≠ other.unit then .error .valueError
  else .ok ()

/-- `Nutrient.__add__` (nutrient.py lines 96-125, identically composite.py
lines 81-110): type test, then sum of values with unioned sources. -/
def Nutrient.add (a other : Nutrient) : Except PyErr Nutrient := do
  a.type_test other
  .ok { name := a.name
        value := a.value + other.value
        unit := a.unit
        abbr := a.abbr
        source := sourceUnion a.source other.source
        name_source := a.name_source }

/-- `Nutrient.__sub__`, nutrient.py revision (lines 127-160): type test, then
difference of values; the non-negativity assertion is dropped in this
revision. -/
def Nutrient.sub_nutrientpy (a other : Nutrient) : Except PyErr Nutrient := do
  a.type_test other
  .ok { name := a.name
        value := a.value - other.value
        unit := a.unit
        abbr := a.abbr
        source := sourceUnion a.source other.source
        name_source := a.name_source }

/-- `Nutrient.__sub__`, composite.py revision (lines 112-147): additionally
asserts `self.value >= other.value`. -/
def Nutrient.sub_composite (a other : Nutrient) : Except PyErr Nutrient := do
  a.type_test other
  if ¬ (other.value ≤ a.value) then .error .assertionError
  else
    .ok { name := a.name
          value := a.value - other.value
          unit := a.unit
          abbr := a.abbr
          source := sourceUnion a.source other.source
          name_source := a.name_source }

/-- `Nutrient.__mul__` (nutrient.py lines 162-192, identically composite.py
lines 149-179): asserts `scalar >= 0`, keeps the sources of the first
operand. -/
def Nutrient.mul (a : Nutrient) (scalar : ℚ) : Except PyErr Nutrient :=
  if ¬ (0 ≤ scalar) then .error .assertionError
  else
    .ok { name := a.name
          value := a.value * scalar
          unit := a.unit
          abbr := a.abbr
          source := a.source
          name_source := a.name_source }

/-- The scalar branch of `Nutrient.__truediv__` (nutrient.py lines 246-254,
identically composite.py lines 233-241): asserts `scalar > 0`, divides the
value in place of the unit-preserving result. -/
def Nutrient.truediv_scalar (a : Nutrient) (other : ℚ) : Except PyErr Nutrient :=
  if ¬ (0 < other) then .error .assertionError
  else
    .ok { name := a.name
          value := a.value / other
          unit := a.unit
          abbr := a.abbr
          source := a.source
          name_source := a.name_source }

/-- A nutrient whose value may be the float NaN (`value? = none`), as
produced by the nutrient.py revision of `Nutrient.__truediv__` when the
divisor's value is zero. -/
structure NutrientNaN where
  name : String
  value? : Option ℚ
  unit : String
  abbr : String
  source : List String
  name_source : String
deriving DecidableEq, Repr

/-- The `Nutrient` branch of `Nutrient.__truediv__`, nutrient.py revision
(lines 256-268): type test, then division of the values, with
`ZeroDivisionError` caught and replaced by `float('nan')`; the result is a
dimensionless (`unit = ""`) nutrient and no exception escapes. -/
def Nutrient.truediv_nut_nutrientpy (a other : Nutrient) :
    Except PyErr NutrientNaN := do
  a.type_test other
  let value? : Option ℚ :=
    if other.value = 0 then none else some (a.value / other.value)
  .ok { name := a.name
        value? := value?
        unit := ""
        abbr := a.abbr
        source := a.source
        name_source := a.name_source }

/-- The `Nutrient` branch of `Nutrient.__truediv__`, composite.py revision
(lines 243-250): no exception handler, so a zero divisor value raises
`ZeroDivisionError`; the result's unit is the literal one-space string. -/
def Nutrient.truediv_nut_composite (a other : Nutrient) :
    Except PyErr Nutrient := do
  a.type_test other
  if other.value = 0 then .error .zeroDivisionError
  else
    .ok { name := a.name
          value := a.value / other.value
          unit := " "
          abbr := a.abbr
          source := a.source
          name_source := a.name_source }

/-! ## Nutrients (src/ragdoll/nutrient.py lines 547-918 and the revision in
src/ragdoll/composite.py lines 529-920)

A `Nutrients` object is an insertion-ordered mapping from abbreviation to
`Nutrient` (`OrderedDict`); it is embedded as a list of `Nutrient` whose
abbreviations are pairwise distinct whenever the list was built by the
constructor. -/

/-- Mapping a fallible function over a list, left to right, propagating the
first raised exception: the embedding of a Python list comprehension whose
body may raise. -/
def mapExcept {α β : Type} (f : α → Except PyErr β) : List α → Except PyErr (List β)
  | [] => .ok []
  | x :: xs => do
    let y ← f x
    let ys ← mapExcept f xs
    .ok (y :: ys)

/-- Folding a fallible function over a list, left to right, propagating the
first raised exception: the embedding of a Python for-loop whose body may
raise. -/
def foldExcept {σ α : Type} (f : σ → α → Except PyErr σ) : σ → List α → Except PyErr σ
  | s, [] => .ok s
  | s, x :: xs => do
    let s' ← f s x
    foldExcept f s' xs

/-- The list of abbreviation keys of a nutrient list (`self.nutrients.keys()`
in insertion order). -/
def abbrs (ns : List Nutrient) : List String := ns.map Nutrient.abbr

/-- Membership test of an abbreviation (`abbr in self.nutrients`). -/
def hasAbbr : List Nutrient → String → Bool
  | [], _ => false
  | n :: rest, k => if n.abbr = k then true else hasAbbr rest k

/-- Lookup of an abbreviation (`self.nutrients[abbr]`). -/
def lookupAbbr : List Nutrient → String → Option Nutrient
  | [], _ => none
  | n :: rest, k => if n.abbr = k then some n else lookupAbbr rest k

/-- One step of `Nutrients.add_nutrients` (nutrient.py lines 609-636,
identically composite.py lines 591-618): if the abbreviation is already
present, the stored entry is combined with the new one by `Nutrient.__add__`
(keeping its position in the order); otherwise the nutrient is appended. -/
def addNutrientEntry : List Nutrient → Nutrient → Except PyErr (List Nutrient)
  | [], n => .ok [n]
  | m :: rest, n =>
    if m.abbr = n.abbr then do
      let mn ← Nutrient.add m n
      .ok (mn :: rest)
    else do
      let rest' ← addNutrientEntry rest n
      .ok (m :: rest')

/-- `Nutrients.__init__` / `Nutrients(input_nutrients=...)` (nutrient.py
lines 586-605): fold `add_nutrients` over the input list, starting from the
empty ordered dict. -/
def mkNutrients (input_nutrients : List Nutrient) : Except PyErr (List Nutrient) :=
  foldExcept addNutrientEntry [] input_nutrients

/-- `std_nut` (nutrient.py lines 29-31): the fixed canonical nutrient
ordering. -/
def std_nut : List String :=
  ["PROCNT", "CBH", "LIP", "FIBTG", "CHOLE", "VITA", "VITC", "VITE",
   "RIBF", "NIA", "THIA",
   "SE", "MG", "K", "ZN", "MN", "NA", "CA", "FE", "CU"]

/-- `key_matching` (nutrient.py lines 37-39): the keys of `std_nut` present
in both key sets, in `std_nut` order.  The source's `order` parameter is
ignored by its own body (`std_nut` is hard-coded in the comprehension), so it
is omitted here. -/
def key_matching (key_set1 key_set2 : List String) : List String :=
  std_nut.filter (fun key => containsStr key_set1 key && containsStr key_set2 key)

/-- The per-key body shared by every binary `Nutrients` operation: for each
matched abbreviation, combine `self.nutrients[abbr]` with
`other.nutrients[abbr]` using the per-nutrient operation (`+`, `-` or `/`).
The `keyError` branches are unreachable because every matched key is present
in both operands. -/
def combineMatched (op : Nutrient → Nutrient → Except PyErr Nutrient)
    (a other : List Nutrient) (keys : List String) :
    Except PyErr (List Nutrient) :=
  mapExcept (fun abbr =>
    match lookupAbbr a abbr, lookupAbbr other abbr with
    | some x, some y => op x y
    | _, _ => .error .keyError) keys

/-- `Nutrients.add`, nutrient.py revision (lines 662-701): the matched keys
are produced by `key_matching`, and each matched pair of entries is summed.
The `other == 0` short-circuit for `sum()` folds is modeled at the component
layer (`pyNutSumStep`). -/
def nutrientsAdd_nutrientpy (a other : List Nutrient) :
    Except PyErr (List Nutrient) := do
  let news ← combineMatched Nutrient.add a other
    (key_matching (abbrs a) (abbrs other))
  mkNutrients news

/-- `Nutrients.sub`, nutrient.py revision (lines 713-749): like the addition
but with `Nutrient.__sub__` (which carries no value assertion in this
revision). -/
def nutrientsSub_nutrientpy (a other : List Nutrient) :
    Except PyErr (List Nutrient) := do
  let news ← combineMatched Nutrient.sub_nutrientpy a other
    (key_matching (abbrs a) (abbrs other))
  mkNutrients news

/-- The matched keys `self_keys & other_keys` of the composite.py revision's
binary operations.  Python iterates that key set in unspecified (hash)
order; the embedding determinizes it to the first operand's insertion order,
which is immaterial to every property proved here (all are
order-independent). -/
def interKeys (a other : List Nutrient) : List String :=
  (abbrs a).filter (fun k => hasAbbr other k)

/-- `Nutrients.add`, composite.py revision (lines 644-704), for
`method="intersect"`: iterates over `self_keys & other_keys` and sums the
matched entries. -/
def nutrientsAddIntersect_composite (a other : List Nutrient) :
    Except PyErr (List Nutrient) := do
  let news ← combineMatched Nutrient.add a other (interKeys a other)
  mkNutrients news

/-- `Nutrients.sub`, composite.py revision (lines 716-769), for
`method="intersect"`: like the addition but with this revision's
`Nutrient.__sub__`, which asserts `self.value >= other.value`. -/
def nutrientsSubIntersect_composite (a other : List Nutrient) :
    Except PyErr (List Nutrient) := do
  let news ← combineMatched Nutrient.sub_composite a other (interKeys a other)
  mkNutrients news

/-- `Nutrients.__mul__` (composite.py lines 777-808; nutrient.py
`multiply_scalar` lines 757-788 is the same computation): asserts
`scalar >= 0` and multiplies every entry. -/
def nutrientsMul (a : List Nutrient) (scalar : ℚ) :
    Except PyErr (List Nutrient) := do
  if ¬ (0 ≤ scalar) then .error .assertionError
  else do
    let news ← mapExcept (fun n => Nutrient.mul n scalar) a
    mkNutrients news

/-- The divisor argument of `Nutrients.__truediv__`: a scalar or another
`Nutrients` (any other type raises `ValueError`, unreachable here). -/
inductive NutsDivArg
  | scalar (q : ℚ)
  | nuts (ns : List Nutrient)

/-- `Nutrients.__truediv__`, composite.py revision (lines 815-856).  The
scalar path asserts `scalar > 0` and divides every entry; the `Nutrients`
path under `method='intersect'` divides the matched entries (iteration over
`self.keys() & other.keys()` determinized to the first operand's order), and
under `method='union'` raises `ValueError("union can't be performed.")`; any
other method falls through to an empty result. -/
def nutrientsTruediv_composite (a : List Nutrient) (other : NutsDivArg)
    (method : String := "intersect") : Except PyErr (List Nutrient) := do
  match other with
  | .scalar q =>
    if ¬ (0 < q) then .error .assertionError
    else do
      let news ← mapExcept (fun n => Nutrient.truediv_scalar n q) a
      mkNutrients news
  | .nuts b =>
    if method = "intersect" then do
      let news ← combineMatched Nutrient.truediv_nut_composite a b (interKeys a b)
      mkNutrients news
    else if method = "union" then .error .valueError
    else mkNutrients []

/-! ## Component hierarchy (src/ragdoll/composite.py lines 925-1726)

`Component` is the closed variant set {Ingredient, Basket, Meal}.  A
composite stores its `children` ordered dict (embedded as an association
list keyed by name), plus the mutable attributes `value` and `nutrients`
that `update_attr` recomputes from the children.  Python's builtin
`sum([...])` over children nutrients starts from the integer `0`, so the
`nutrients` attribute of a composite is either that integer (empty children)
or a `Nutrients` object; `PyNutSum` is that union. -/

/-- The value of the `nutrients` attribute of a composite after
`compute_nutrition` (composite.py lines 1457-1460): the integer `0` for an
empty children dict, otherwise a `Nutrients` object. -/
inductive PyNutSum
  | zero
  | nuts (ns : List Nutrient)
deriving DecidableEq, Repr

/-- The `Component` closed variant set: `IngredientComponent` (composite.py
lines 1107-1394), `BasketComponent` (lines 1412-1635), `MealComponent`
(lines 1638-1726).  Metadata dicts are embedded as association lists. -/
inductive Component
  | ingredient (name : String) (value : ℚ) (unit : String)
      (nutrients : List Nutrient) (meta : List (String × String))
  | basket (name : String) (unit : String)
      (children : List (String × Component)) (value : ℚ)
      (nutrients : PyNutSum)
  | meal (name : String) (unit : String)
      (children : List (String × Component)) (value : ℚ)
      (nutrients : PyNutSum) (meta : List (String × String))

/-- Membership of a key-value pair in an embedded metadata dict. -/
def containsPair (m : List (String × String)) (kv : String × String) : Bool :=
  match m with
  | [] => false
  | p :: rest => if kv = p then true else containsPair rest kv

/-- Python dict equality on embedded metadata: same key-value pairs
regardless of insertion order (`self.meta == other.meta`). -/
def metaEq (m1 m2 : List (String × String)) : Bool :=
  m1.all (fun kv => containsPair m2 kv) && m2.all (fun kv => containsPair m1 kv)

/-- The `name` attribute. -/
def Component.name : Component → String
  | .ingredient n _ _ _ _ => n
  | .basket n _ _ _ _ => n
  | .meal n _ _ _ _ _ => n

/-- The `value` attribute (the component's total quantity). -/
def Component.valueOf : Component → ℚ
  | .ingredient _ v _ _ _ => v
  | .basket _ _ _ v _ => v
  | .meal _ _ _ v _ _ => v

/-- The `nutrients` attribute, as the `PyNutSum` union: an ingredient always
holds a `Nutrients` object, a composite holds whatever `compute_nutrition`
last stored. -/
def Component.nutVal : Component → PyNutSum
  | .ingredient _ _ _ ns _ => .nuts ns
  | .basket _ _ _ _ ns => ns
  | .meal _ _ _ _ ns _ => ns

/-- The `children` ordered dict (empty for an ingredient). -/
def Component.childrenOf : Component → List (String × Component)
  | .ingredient _ _ _ _ _ => []
  | .basket _ _ cs _ _ => cs
  | .meal _ _ cs _ _ _ => cs

/-- The `list(self.children.values())` view of a composite. -/
def Component.childValues (c : Component) : List Component :=
  c.childrenOf.map Prod.snd

/-- Membership test of a key in a children dict (`child.name in
self.children`). -/
def hasKey : List (String × Component) → String → Bool
  | [], _ => false
  | p :: rest, k => if p.1 = k then true else hasKey rest k

/-- Deletion of a key from a children dict (`del self.children[key]`). -/
def removeKey : List (String × Component) → String → List (String × Component)
  | [], _ => []
  | p :: rest, k => if p.1 = k then removeKey rest k else p :: removeKey rest k

/-- One step of Python's builtin `sum` over children nutrients:
`acc + child.nutrients`.  Adding to the integer `0` start value hits
`Nutrients.__radd__` and the `other == 0` branch of `Nutrients.add`
(composite.py lines 668-670), which returns the operand unchanged; two
`Nutrients` objects are combined by the intersect addition. -/
def pyNutSumStep (acc x : PyNutSum) : Except PyErr PyNutSum :=
  match acc, x with
  | .zero, y => .ok y
  | .nuts a, .zero => .ok (.nuts a)
  | .nuts a, .nuts b => (nutrientsAddIntersect_composite a b).map .nuts

/-- `BasketComponent.compute_nutrition` (composite.py lines 1457-1460):
`sum([child.nutrients for child in self.children.values()])`. -/
def computeNutrition (children : List (String × Component)) :
    Except PyErr PyNutSum :=
  foldExcept (fun acc p => pyNutSumStep acc p.2.nutVal) .zero children

/-- `BasketComponent.compute_value` (composite.py lines 1462-1464):
`sum([child.value for child in self.children.values()])`. -/
def computeValue (children : List (String × Component)) : ℚ :=
  children.foldl (fun acc p => acc + p.2.valueOf) 0

/-- Sum of the `value` attributes of a plain component list. -/
def sumValues (cs : List Component) : ℚ :=
  cs.foldl (fun acc c => acc + c.valueOf) 0

mutual

/-- Polymorphic component addition: `IngredientComponent.add` (composite.py
lines 1136-1198), `BasketComponent.add` (lines 1480-1492),
`MealComponent.add` (lines 1650-1666).  Two ingredients of identical
identity (meta, name and unit) merge into one ingredient with summed value
and intersect-summed nutrients; every other pairing constructs
`BasketComponent(name='MyBasket', children=[...])` with the branch's
children list.  The fuel models Python's recursion limit: merging
name-colliding children re-enters this addition. -/
def componentAdd : Nat → Component → Component → Except PyErr Component
  | 0, _, _ => .error .recursionError
  | fuel+1, a, b =>
    match a, b with
    | .ingredient n v u ns meta, .ingredient n' v' u' ns' meta' =>
      if metaEq meta meta' = true ∧ n = n' ∧ u = u' then do
        let sum ← nutrientsAddIntersect_composite ns ns'
        .ok (.ingredient n (v + v') u sum meta)
      else
        mkBasket fuel "MyBasket" "g"
          [.ingredient n v u ns meta, .ingredient n' v' u' ns' meta']
    | .ingredient n v u ns meta, .basket _ _ cs _ _ =>
      mkBasket fuel "MyBasket" "g" (.ingredient n v u ns meta :: cs.map Prod.snd)
    | .ingredient n v u ns meta, .meal n' u' cs' v' ns' meta' =>
      mkBasket fuel "MyBasket" "g"
        [.ingredient n v u ns meta, .meal n' u' cs' v' ns' meta']
    | .basket _ _ cs _ _, .ingredient n' v' u' ns' meta' =>
      mkBasket fuel "MyBasket" "g"
        (cs.map Prod.snd ++ [.ingredient n' v' u' ns' meta'])
    | .basket _ _ cs _ _, .basket _ _ cs' _ _ =>
      mkBasket fuel "MyBasket" "g" (cs.map Prod.snd ++ cs'.map Prod.snd)
    | .basket _ _ cs _ _, .meal n' u' cs' v' ns' meta' =>
      mkBasket fuel "MyBasket" "g"
        (cs.map Prod.snd ++ [.meal n' u' cs' v' ns' meta'])
    | .meal n u cs v ns meta, .ingredient n' v' u' ns' meta' =>
      mkBasket fuel "MyBasket" "g"
        [.meal n u cs v ns meta, .ingredient n' v' u' ns' meta']
    | .meal n u cs v ns meta, .basket _ _ cs' _ _ =>
      mkBasket fuel "MyBasket" "g" (.meal n u cs v ns meta :: cs'.map Prod.snd)
    | .meal n u cs v ns meta, .meal n' u' cs' v' ns' meta' =>
      mkBasket fuel "MyBasket" "g"
        [.meal n u cs v ns meta, .meal n' u' cs' v' ns' meta']
termination_by fuel _ _ => (fuel, 0, 0)

/-- The merge-on-collision update `self.children[child.name] =
self.children[child.name] + child` (composite.py line 1449): replace the
entry stored under the colliding key by its sum with the new child, keeping
its position in the insertion order. -/
def updateChild : Nat → List (String × Component) → Component →
    Except PyErr (List (String × Component))
  | _, [], _ => .error .keyError
  | fuel, (k, c) :: rest, child =>
    if k = child.name then do
      let merged ← componentAdd fuel c child
      .ok ((k, merged) :: rest)
    else do
      let rest' ← updateChild fuel rest child
      .ok ((k, c) :: rest')
termination_by fuel assoc _ => (fuel, 1, assoc.length)

/-- The loop body of `BasketComponent.add_children` (composite.py
lines 1444-1453): for each child, merge into the name-colliding entry if one
exists, else append the child keyed by its name. -/
def insertChildren : Nat → List (String × Component) → List Component →
    Except PyErr (List (String × Component))
  | _, assoc, [] => .ok assoc
  | fuel, assoc, child :: rest => do
    let assoc' ←
      if hasKey assoc child.name then
        updateChild fuel assoc child
      else
        .ok (assoc ++ [(child.name, child)])
    insertChildren fuel assoc' rest
termination_by fuel _ cs => (fuel, 2, cs.length)

/-- `BasketComponent.__init__` (composite.py lines 1414-1418): start from an
empty children dict, run `add_children` on the input list, and store the
`update_attr` results (composite.py lines 1455, 1466-1469). -/
def mkBasket (fuel : Nat) (name unit : String) (children : List Component) :
    Except PyErr Component := do
  let assoc ← insertChildren fuel [] children
  let ns ← computeNutrition assoc
  .ok (.basket name unit assoc (computeValue assoc) ns)
termination_by (fuel, 3, 0)

end

/-- `MealComponent.__init__` (composite.py lines 1640-1648): delegates to
`BasketComponent.__init__` and then stores the meta dict. -/
def mkMeal (fuel : Nat) (name : String) (children : List Component)
    (unit : String) (meta : List (String × String)) :
    Except PyErr Component := do
  let assoc ← insertChildren fuel [] children
  let ns ← computeNutrition assoc
  .ok (.meal name unit assoc (computeValue assoc) ns meta)

/-- `BasketComponent.add_children` called on an existing basket or meal
(composite.py lines 1420-1455): extend the current children dict and rerun
`update_attr`.  An ingredient has no `add_children` method, so that case
raises `AttributeError`. -/
def addChildren (fuel : Nat) (c : Component) (children : List Component) :
    Except PyErr Component :=
  match c with
  | .ingredient _ _ _ _ _ => .error .attributeError
  | .basket n u assoc _ _ => do
    let assoc' ← insertChildren fuel assoc children
    let ns ← computeNutrition assoc'
    .ok (.basket n u assoc' (computeValue assoc') ns)
  | .meal n u assoc _ _ meta => do
    let assoc' ← insertChildren fuel assoc children
    let ns ← computeNutrition assoc'
    .ok (.meal n u assoc' (computeValue assoc') ns meta)

/-- `BasketComponent.__delitem__` (composite.py lines 1573-1576): delete a
child by key (Python raises `KeyError` on an absent key) and rerun
`update_attr`.  The ingredient variant deletes from `nutrients` instead
(lines 1363-1365). -/
def delChild (c : Component) (key : String) : Except PyErr Component :=
  match c with
  | .ingredient n v u ns meta =>
    if hasAbbr ns key then
      .ok (.ingredient n v u (ns.filter (fun m => m.abbr ≠ key)) meta)
    else .error .keyError
  | .basket n u assoc _ _ =>
    if hasKey assoc key then do
      let assoc' := removeKey assoc key
      let ns ← computeNutrition assoc'
      .ok (.basket n u assoc' (computeValue assoc') ns)
    else .error .keyError
  | .meal n u assoc _ _ meta =>
    if hasKey assoc key then do
      let assoc' := removeKey assoc key
      let ns ← computeNutrition assoc'
      .ok (.meal n u assoc' (computeValue assoc') ns meta)
    else .error .keyError

/-- Scalar multiplication: `IngredientComponent.multiply` (composite.py
lines 1247-1272), `BasketComponent.__mul__` (lines 1503-1513, the rebuilt
basket's unit falls back to the constructor default `'g'`),
`MealComponent.__mul__` (lines 1671-1681, likewise with the default unit and
an empty meta).  All three assert `scalar >= 0`. -/
def componentMul : Nat → Component → ℚ → Except PyErr Component
  | 0, _, _ => .error .recursionError
  | fuel+1, c, scalar =>
    match c with
    | .ingredient n v u ns meta =>
      if ¬ (0 ≤ scalar) then .error .assertionError
      else do
        let ns' ← nutrientsMul ns scalar
        .ok (.ingredient n (v * scalar) u ns' meta)
    | .basket n _ assoc _ _ =>
      if ¬ (0 ≤ scalar) then .error .assertionError
      else do
        let children ← mapExcept (fun p => componentMul fuel p.2 scalar) assoc
        mkBasket fuel n "g" children
    | .meal n _ assoc _ _ _ =>
      if ¬ (0 ≤ scalar) then .error .assertionError
      else do
        let children ← mapExcept (fun p => componentMul fuel p.2 scalar) assoc
        mkMeal fuel n children "g" []

/-- Scalar division: the scalar branch of `IngredientComponent.divide`
(composite.py lines 1312-1320), `BasketComponent.__truediv__`
(lines 1519-1529) and `MealComponent.__truediv__` (lines 1687-1697), all
asserting `scalar > 0`; the rebuilt composite's unit again falls back to the
default `'g'`. -/
def componentDiv : Nat → Component → ℚ → Except PyErr Component
  | 0, _, _ => .error .recursionError
  | fuel+1, c, scalar =>
    match c with
    | .ingredient n v u ns meta =>
      if ¬ (0 < scalar) then .error .assertionError
      else do
        let ns' ← nutrientsTruediv_composite ns (.scalar scalar)
        .ok (.ingredient n (v / scalar) u ns' meta)
    | .basket n _ assoc _ _ =>
      if ¬ (0 < scalar) then .error .assertionError
      else do
        let children ← mapExcept (fun p => componentDiv fuel p.2 scalar) assoc
        mkBasket fuel n "g" children
    | .meal n _ assoc _ _ _ =>
      if ¬ (0 < scalar) then .error .assertionError
      else do
        let children ← mapExcept (fun p => componentDiv fuel p.2 scalar) assoc
        mkMeal fuel n children "g" []

/-- `IngredientComponent.sub` (composite.py lines 1200-1235): only another
ingredient with matching meta and no larger value can be subtracted; the
result keeps the first operand's name and unit, subtracts the values, and
stores `self.nutrients + other.nutrients` — the intersect-policy sum, not a
difference. -/
def ingredientSub (a b : Component) : Except PyErr Component :=
  match a, b with
  | .ingredient n v u ns meta, .ingredient _ v' _ ns' meta' =>
    if metaEq meta meta' = false then .error .valueError
    else if v < v' then .error .valueError
    else do
      let s ← nutrientsAddIntersect_composite ns ns'
      .ok (.ingredient n (v - v') u s meta)
  | _, _ => .error .typeError

/-- `BasketComponent.convert2meal` (composite.py lines 1605-1612): build a
`MealComponent` from the basket's children values and unit (meals, which
inherit the method, convert the same way); an ingredient has no such method
(`AttributeError`). -/
def convert2meal (fuel : Nat) (c : Component) (name : String) :
    Except PyErr Component :=
  match c with
  | .ingredient _ _ _ _ _ => .error .attributeError
  | .basket _ u assoc _ _ => mkMeal fuel name (assoc.map Prod.snd) u []
  | .meal _ u assoc _ _ _ => mkMeal fuel name (assoc.map Prod.snd) u []

/-- Sample nutrient: protein, in grams, USDA-sourced. -/
def protein (v : ℚ) : Nutrient := ⟨"Protein", v, "g", "PROCNT", ["usda"], "usda"⟩

/-- Sample nutrient: carbohydrate, in grams, USDA-sourced. -/
def carb (v : ℚ) : Nutrient := ⟨"Carb", v, "g", "CBH", ["usda"], "usda"⟩

/-- Sample nutrient: water, in grams — an abbreviation absent from the
canonical `std_nut` ordering. -/
def water (v : ℚ) : Nutrient := ⟨"Water", v, "g", "WATER", ["usda"], "usda"⟩

/-- Sample ingredient A: 60 g, protein 5 g and carbohydrate 10 g. -/
def ingA : Component :=
  .ingredient "A" 60 "g" [protein 5, carb 10] [("collection", "usda")]

/-- Sample ingredient B: 40 g, protein 3 g. -/
def ingB : Component := .ingredient "B" 40 "g" [protein 3] [("collection", "usda")]

/-- Sample meal with ingredient A as its only child (as built by
`convert2meal` from a one-ingredient basket). -/
def mealM : Component := .meal "M" "g" [("A", ingA)] 60 (.nuts [protein 5, carb 10]) []

/-- Sample basket with ingredient B as its only child (as built by the
basket constructor). -/
def basketB : Component := .basket "BB" "g" [("B", ingB)] 40 (.nuts [protein 3])

/-- The composite derivation invariant of the spec: a basket's or meal's
stored `nutrients` is the intersect-policy sum of its children's nutrients
and its stored `value` is the sum of its children's values (an ingredient
carries no derived attributes). -/
def derivedInvariant : Component → Prop
  | .ingredient _ _ _ _ _ => True
  | .basket _ _ assoc v ns => computeNutrition assoc = .ok ns ∧ v = computeValue assoc
  | .meal _ _ assoc v ns _ => computeNutrition assoc = .ok ns ∧ v = computeValue assoc

/-- Well-formedness of a component tree as the code constructs it: every
composite's stored attributes satisfy the derivation invariant, the children
dict's stored components have pairwise distinct names (they were keyed by
name on insertion), and the children are recursively well-formed. -/
inductive WfN : Component → Prop
  | ingredient {n : String} {v : ℚ} {u : String} {ns : List Nutrient}
      {meta : List (String × String)} : WfN (.ingredient n v u ns meta)
  | basket {n u : String} {assoc : List (String × Component)} {v : ℚ}
      {ns : PyNutSum} :
      computeNutrition assoc = .ok ns → v = computeValue assoc →
      (assoc.map (fun p => p.2.name)).Nodup →
      (∀ p ∈ assoc, WfN p.2) → WfN (.basket n u assoc v ns)
  | meal {n u : String} {assoc : List (String × Component)} {v : ℚ}
      {ns : PyNutSum} {meta : List (String × String)} :
      computeNutrition assoc = .ok ns → v = computeValue assoc →
      (assoc.map (fun p => p.2.name)).Nodup →
      (∀ p ∈ assoc, WfN p.2) → WfN (.meal n u assoc v ns meta)

/-- Whether a component is a `MealComponent`. -/
def Component.isMeal : Component → Prop
  | .meal _ _ _ _ _ _ => True
  | _ => False

/-- Whether a component is a `BasketComponent`. -/
def Component.isBasket : Component → Prop
  | .basket _ _ _ _ _ => True
  | _ => False

/-- Whether a component is an `IngredientComponent`. -/
def Component.isIngredient : Component → Prop
  | .ingredient _ _ _ _ _ => True
  | _ => False

/-- The children list each basket-constructing branch of the component
addition passes to `BasketComponent(name='MyBasket', children=[...])`; for
the identity-merging ingredient branch (which builds no basket) it is the
two operands, as in the non-merging ingredient branch. -/
def addChildArg : Component → Component → List Component
  | .ingredient n v u ns meta, .ingredient n' v' u' ns' meta' =>
    [.ingredient n v u ns meta, .ingredient n' v' u' ns' meta']
  | .ingredient n v u ns meta, .basket _ _ cs _ _ =>
    .ingredient n v u ns meta :: cs.map Prod.snd
  | .ingredient n v u ns meta, .meal n' u' cs' v' ns' meta' =>
    [.ingredient n v u ns meta, .meal n' u' cs' v' ns' meta']
  | .basket _ _ cs _ _, .ingredient n' v' u' ns' meta' =>
    cs.map Prod.snd ++ [.ingredient n' v' u' ns' meta']
  | .basket _ _ cs _ _, .basket _ _ cs' _ _ =>
    cs.map Prod.snd ++ cs'.map Prod.snd
  | .basket _ _ cs _ _, .meal n' u' cs' v' ns' meta' =>
    cs.map Prod.snd ++ [.meal n' u' cs' v' ns' meta']
  | .meal n u cs v ns meta, .ingredient n' v' u' ns' meta' =>
    [.meal n u cs v ns meta, .ingredient n' v' u' ns' meta']
  | .meal n u cs v ns meta, .basket _ _ cs' _ _ =>
    .meal n u cs v ns meta :: cs'.map Prod.snd
  | .meal n u cs v ns meta, .meal n' u' cs' v' ns' meta' =>
    [.meal n u cs v ns meta, .meal n' u' cs' v' ns' meta']

/-! ## Generic reduction and list lemmas -/

theorem okBind {α β : Type} (v : α) (f : α → Except PyErr β) :
    (Except.ok v >>= f : Except PyErr β) = f v := rfl

theorem errBind {α β : Type} (e : PyErr) (f : α → Except PyErr β) :
    (Except.error e >>= f : Except PyErr β) = .error e := rfl

theorem okMap {α β : Type} (v : α) (f : α → β) :
    (Except.map f (Except.ok v) : Except PyErr β) = .ok (f v) := rfl

theorem errMap {α β : Type} (e : PyErr) (f : α → β) :
    (Except.map f (Except.error e) : Except PyErr β) = .error e := rfl

theorem mapExcept_ok_forall {α β : Type} {f : α → Except PyErr β} :
    ∀ {l : List α} {r : List β}, mapExcept f l = .ok r →
      List.Forall₂ (fun x y => f x = .ok y) l r := by
  intro l
  induction l with
  | nil =>
    intro r h
    simp only [mapExcept] at h
    injection h with h
    subst h
    exact .nil
  | cons x xs ih =>
    intro r h
    simp only [mapExcept] at h
    cases hf : f x with
    | error e => rw [hf, errBind] at h; exact absurd h (by simp)
    | ok y =>
      rw [hf, okBind] at h
      cases hm : mapExcept f xs with
      | error e => rw [hm, errBind] at h; exact absurd h (by simp)
      | ok ys =>
        rw [hm, okBind] at h
        injection h with h
        subst h
        exact .cons hf (ih hm)

theorem mapExcept_ok_of_forall {α β : Type} {f : α → Except PyErr β} :
    ∀ {l : List α}, (∀ x ∈ l, ∃ y, f x = .ok y) → ∃ r, mapExcept f l = .ok r := by
  intro l
  induction l with
  | nil => intro _; exact ⟨[], rfl⟩
  | cons x xs ih =>
    intro h
    obtain ⟨y, hy⟩ := h x (by simp)
    obtain ⟨ys, hys⟩ := ih (fun z hz => h z (by simp [hz]))
    exact ⟨y :: ys, by simp only [mapExcept, hy, okBind, hys]⟩

theorem lookupAbbr_some_abbr : ∀ {ns : List Nutrient} {k : String} {x : Nutrient},
    lookupAbbr ns k = some x → x.abbr = k := by
  intro ns
  induction ns with
  | nil => intro k x h; simp [lookupAbbr] at h
  | cons n rest ih =>
    intro k x h
    simp only [lookupAbbr] at h
    by_cases hk : n.abbr = k
    · rw [if_pos hk] at h
      injection h with h
      subst h
      exact hk
    · rw [if_neg hk] at h
      exact ih h

theorem lookupAbbr_some_mem : ∀ {ns : List Nutrient} {k : String} {x : Nutrient},
    lookupAbbr ns k = some x → x ∈ ns := by
  intro ns
  induction ns with
  | nil => intro k x h; simp [lookupAbbr] at h
  | cons n rest ih =>
    intro k x h
    simp only [lookupAbbr] at h
    by_cases hk : n.abbr = k
    · rw [if_pos hk] at h
      injection h with h
      subst h
      exact List.mem_cons_self _ _
    · rw [if_neg hk] at h
      exact List.mem_cons_of_mem _ (ih h)

theorem lookupAbbr_of_mem_abbrs : ∀ {ns : List Nutrient} {k : String},
    k ∈ abbrs ns → ∃ x, lookupAbbr ns k = some x := by
  intro ns
  induction ns with
  | nil => intro k h; simp [abbrs] at h
  | cons n rest ih =>
    intro k h
    by_cases hk : n.abbr = k
    · exact ⟨n, by simp [lookupAbbr, hk]⟩
    · simp only [abbrs, List.map_cons, List.mem_cons] at h
      rcases h with h | h
      · exact absurd h.symm hk
      · obtain ⟨x, hx⟩ := ih h
        exact ⟨x, by simp [lookupAbbr, hk, hx]⟩

theorem hasAbbr_iff_mem : ∀ {ns : List Nutrient} {k : String},
    hasAbbr ns k = true ↔ k ∈ abbrs ns := by
  intro ns
  induction ns with
  | nil => intro k; simp [hasAbbr, abbrs]
  | cons n rest ih =>
    intro k
    by_cases hk : n.abbr = k
    · simp [hasAbbr, hk, abbrs]
    · simp only [hasAbbr, if_neg hk]
      rw [ih]
      simp only [abbrs, List.map_cons, List.mem_cons]
      constructor
      · intro h
        exact Or.inr h
      · intro h
        rcases h with h | h
        · exact absurd h.symm hk
        · exact h

theorem hasAbbr_append {a b : List Nutrient} {k : String} :
    hasAbbr (a ++ b) k = (hasAbbr a k || hasAbbr b k) := by
  induction a with
  | nil => simp [hasAbbr]
  | cons n rest ih =>
    by_cases hk : n.abbr = k
    · simp [hasAbbr, hk]
    · simp [hasAbbr, hk, ih]

theorem abbrs_append {a b : List Nutrient} : abbrs (a ++ b) = abbrs a ++ abbrs b := by
  simp [abbrs]

theorem addNutrientEntry_fresh : ∀ {ns : List Nutrient} {n : Nutrient},
    hasAbbr ns n.abbr = false → addNutrientEntry ns n = .ok (ns ++ [n]) := by
  intro ns
  induction ns with
  | nil => intro n _; rfl
  | cons m rest ih =>
    intro n h
    simp only [hasAbbr] at h
    by_cases hk : m.abbr = n.abbr
    · rw [if_pos hk] at h; exact absurd h (by simp)
    · rw [if_neg hk] at h
      simp only [addNutrientEntry, if_neg hk, ih h, okBind, okMap, errMap]
      rfl

theorem foldAddEntry_fresh : ∀ {l acc : List Nutrient},
    (∀ x ∈ l, hasAbbr acc x.abbr = false) → (abbrs l).Nodup →
    foldExcept addNutrientEntry acc l = .ok (acc ++ l) := by
  intro l
  induction l with
  | nil => intro acc _ _; simp [foldExcept]
  | cons x xs ih =>
    intro acc hfresh hnd
    simp only [foldExcept, addNutrientEntry_fresh (hfresh x (by simp)), okBind, okMap, errMap]
    simp only [abbrs, List.map_cons, List.nodup_cons] at hnd
    have step : ∀ y ∈ xs, hasAbbr (acc ++ [x]) y.abbr = false := by
      intro y hy
      rw [hasAbbr_append]
      have h1 : hasAbbr acc y.abbr = false := hfresh y (by simp [hy])
      have h2 : hasAbbr [x] y.abbr = false := by
        simp only [hasAbbr]
        have : x.abbr ≠ y.abbr := by
          intro hcontr
          exact hnd.1 (hcontr ▸ List.mem_map_of_mem Nutrient.abbr hy)
        rw [if_neg this]
      rw [h1, h2]
      rfl
    rw [ih step hnd.2]
    simp

theorem mkNutrients_self {l : List Nutrient} (h : (abbrs l).Nodup) :
    mkNutrients l = .ok l := by
  have := @foldAddEntry_fresh l [] (fun x _ => rfl) h
  simpa [mkNutrients] using this

/-! ## Characterization of the per-nutrient operations -/

theorem type_test_ok_iff {x y : Nutrient} :
    x.type_test y = .ok () ↔ (x.name = y.name ∧ x.abbr = y.abbr ∧ x.unit = y.unit) := by
  constructor
  · intro h
    simp only [Nutrient.type_test] at h
    by_cases h1 : x.name = y.name
    · by_cases h2 : x.abbr = y.abbr
      · by_cases h3 : x.unit = y.unit
        · exact ⟨h1, h2, h3⟩
        · simp [h1, h2, h3] at h
      · simp [h1, h2] at h
    · simp [h1] at h
  · intro ⟨h1, h2, h3⟩
    simp [Nutrient.type_test, h1, h2, h3]

theorem add_ok_spec {x y z : Nutrient} (h : Nutrient.add x y = .ok z) :
    x.name = y.name ∧ x.abbr = y.abbr ∧ x.unit = y.unit ∧
    z = { name := x.name, value := x.value + y.value, unit := x.unit,
          abbr := x.abbr, source := sourceUnion x.source y.source,
          name_source := x.name_source } := by
  simp only [Nutrient.add] at h
  cases ht : x.type_test y with
  | error e => rw [ht, errBind] at h; exact absurd h (by simp)
  | ok u =>
    obtain ⟨h1, h2, h3⟩ := type_test_ok_iff.mp (by cases u; exact ht)
    rw [ht, okBind] at h
    injection h with h
    exact ⟨h1, h2, h3, h.symm⟩

theorem add_ok_of {x y : Nutrient} (h1 : x.name = y.name) (h2 : x.abbr = y.abbr)
    (h3 : x.unit = y.unit) :
    Nutrient.add x y =
      .ok { name := x.name, value := x.value + y.value, unit := x.unit,
            abbr := x.abbr, source := sourceUnion x.source y.source,
            name_source := x.name_source } := by
  simp only [Nutrient.add, type_test_ok_iff.mpr ⟨h1, h2, h3⟩, okBind, okMap, errMap]

theorem add_ok_abbr {x y z : Nutrient} (h : Nutrient.add x y = .ok z) :
    z.abbr = x.abbr := by
  obtain ⟨-, -, -, hz⟩ := add_ok_spec h
  rw [hz]

theorem sub_nutrientpy_ok_spec {x y z : Nutrient}
    (h : Nutrient.sub_nutrientpy x y = .ok z) :
    x.name = y.name ∧ x.abbr = y.abbr ∧ x.unit = y.unit ∧
    z = { name := x.name, value := x.value - y.value, unit := x.unit,
          abbr := x.abbr, source := sourceUnion x.source y.source,
          name_source := x.name_source } := by
  simp only [Nutrient.sub_nutrientpy] at h
  cases ht : x.type_test y with
  | error e => rw [ht, errBind] at h; exact absurd h (by simp)
  | ok u =>
    obtain ⟨h1, h2, h3⟩ := type_test_ok_iff.mp (by cases u; exact ht)
    rw [ht, okBind] at h
    injection h with h
    exact ⟨h1, h2, h3, h.symm⟩

theorem sub_nutrientpy_ok_abbr {x y z : Nutrient}
    (h : Nutrient.sub_nutrientpy x y = .ok z) : z.abbr = x.abbr := by
  obtain ⟨-, -, -, hz⟩ := sub_nutrientpy_ok_spec h
  rw [hz]

theorem sub_composite_ok_spec {x y z : Nutrient}
    (h : Nutrient.sub_composite x y = .ok z) :
    x.name = y.name ∧ x.abbr = y.abbr ∧ x.unit = y.unit ∧ y.value ≤ x.value ∧
    z = { name := x.name, value := x.value - y.value, unit := x.unit,
          abbr := x.abbr, source := sourceUnion x.source y.source,
          name_source := x.name_source } := by
  simp only [Nutrient.sub_composite] at h
  cases ht : x.type_test y with
  | error e => rw [ht, errBind] at h; exact absurd h (by simp)
  | ok u =>
    obtain ⟨h1, h2, h3⟩ := type_test_ok_iff.mp (by cases u; exact ht)
    rw [ht, okBind] at h
    by_cases hv : ¬ (y.value ≤ x.value)
    · rw [if_pos hv] at h; exact absurd h (by simp)
    · rw [if_neg hv] at h
      injection h with h
      exact ⟨h1, h2, h3, not_not.mp hv, h.symm⟩

theorem sub_composite_ok_abbr {x y z : Nutrient}
    (h : Nutrient.sub_composite x y = .ok z) : z.abbr = x.abbr := by
  obtain ⟨-, -, -, -, hz⟩ := sub_composite_ok_spec h
  rw [hz]

theorem truediv_nut_composite_ok_spec {x y z : Nutrient}
    (h : Nutrient.truediv_nut_composite x y = .ok z) :
    x.name = y.name ∧ x.abbr = y.abbr ∧ x.unit = y.unit ∧ y.value ≠ 0 ∧
    z = { name := x.name, value := x.value / y.value, unit := " ",
          abbr := x.abbr, source := x.source, name_source := x.name_source } := by
  simp only [Nutrient.truediv_nut_composite] at h
  cases ht : x.type_test y with
  | error e => rw [ht, errBind] at h; exact absurd h (by simp)
  | ok u =>
    obtain ⟨h1, h2, h3⟩ := type_test_ok_iff.mp (by cases u; exact ht)
    rw [ht, okBind] at h
    by_cases hv : y.value = 0
    · rw [if_pos hv] at h; exact absurd h (by simp)
    · rw [if_neg hv] at h
      injection h with h
      exact ⟨h1, h2, h3, hv, h.symm⟩

theorem truediv_nut_composite_ok_abbr {x y z : Nutrient}
    (h : Nutrient.truediv_nut_composite x y = .ok z) : z.abbr = x.abbr := by
  obtain ⟨-, -, -, -, hz⟩ := truediv_nut_composite_ok_spec h
  rw [hz]

/-! ## Characterization of the matched-key combination -/

theorem combineMatched_ok_spec {op : Nutrient → Nutrient → Except PyErr Nutrient}
    {a b : List Nutrient}
    (hop : ∀ x y z, op x y = .ok z → z.abbr = x.abbr) :
    ∀ {keys : List String} {news : List Nutrient}, keys.Nodup →
    combineMatched op a b keys = .ok news →
    abbrs news = keys ∧
    (∀ k x y, lookupAbbr a k = some x → lookupAbbr b k = some y → k ∈ keys →
      ∃ z, lookupAbbr news k = some z ∧ op x y = .ok z) := by
  intro keys
  induction keys with
  | nil =>
    intro news _ h
    simp only [combineMatched, mapExcept] at h
    injection h with h
    subst h
    exact ⟨rfl, by simp⟩
  | cons k0 rest ih =>
    intro news hnd h
    simp only [combineMatched, mapExcept] at h
    cases ha : lookupAbbr a k0 with
    | none => rw [ha] at h; simp only [errBind] at h; exact absurd h (by simp)
    | some x0 =>
    cases hb : lookupAbbr b k0 with
    | none => rw [ha, hb] at h; simp only [errBind] at h; exact absurd h (by simp)
    | some y0 =>
      rw [ha, hb] at h
      dsimp only at h
      cases hz : op x0 y0 with
      | error e => rw [hz, errBind] at h; exact absurd h (by simp)
      | ok z0 =>
        rw [hz, okBind] at h
        cases hrest : mapExcept (fun abbr =>
            match lookupAbbr a abbr, lookupAbbr b abbr with
            | some x, some y => op x y
            | _, _ => .error .keyError) rest with
        | error e => rw [hrest, errBind] at h; exact absurd h (by simp)
        | ok tail =>
          rw [hrest, okBind] at h
          injection h with h
          subst h
          simp only [List.nodup_cons] at hnd
          obtain ⟨habbrs, hlook⟩ := ih hnd.2 hrest
          have hz0 : z0.abbr = k0 := by
            rw [hop x0 y0 z0 hz]
            exact lookupAbbr_some_abbr ha
          refine ⟨?_, ?_⟩
          · show abbrs (z0 :: tail) = k0 :: rest
            simp only [abbrs, List.map_cons, hz0]
            exact congrArg (List.cons k0) habbrs
          · intro k x y hx hy hk
            rcases List.mem_cons.mp hk with hk | hk
            · subst hk
              rw [ha] at hx
              rw [hb] at hy
              injection hx with hx
              injection hy with hy
              subst hx
              subst hy
              exact ⟨z0, by simp [lookupAbbr, hz0], hz⟩
            · have hne : ¬ (k0 = k) := fun hcontr => hnd.1 (hcontr ▸ hk)
              obtain ⟨z, hzl, hzop⟩ := hlook k x y hx hy hk
              refine ⟨z, ?_, hzop⟩
              simp only [lookupAbbr, hz0, if_neg hne]
              exact hzl

theorem containsStr_iff_mem : ∀ {l : List String} {x : String},
    containsStr l x = true ↔ x ∈ l := by
  intro l
  induction l with
  | nil => intro x; simp [containsStr]
  | cons y rest ih =>
    intro x
    by_cases hx : x = y
    · simp [containsStr, hx]
    · simp only [containsStr, if_neg hx, List.mem_cons]
      rw [ih]
      exact ⟨Or.inr, fun h => h.elim (fun h => absurd h hx) id⟩

theorem mem_interKeys {a b : List Nutrient} {k : String} :
    k ∈ interKeys a b ↔ (k ∈ abbrs a ∧ k ∈ abbrs b) := by
  simp only [interKeys, List.mem_filter]
  rw [hasAbbr_iff_mem]

theorem interKeys_nodup {a b : List Nutrient} (h : (abbrs a).Nodup) :
    (interKeys a b).Nodup :=
  h.filter _

theorem std_nut_nodup : std_nut.Nodup := by decide

theorem mem_key_matching {s t : List String} {k : String} :
    k ∈ key_matching s t ↔ (k ∈ std_nut ∧ k ∈ s ∧ k ∈ t) := by
  simp only [key_matching, List.mem_filter, Bool.and_eq_true]
  rw [containsStr_iff_mem, containsStr_iff_mem]

theorem key_matching_nodup {s t : List String} : (key_matching s t).Nodup :=
  std_nut_nodup.filter _

theorem key_matching_comm {s t : List String} :
    key_matching s t = key_matching t s := by
  simp only [key_matching]
  exact List.filter_congr (fun k _ => by rw [Bool.and_comm])

theorem combineMk_spec {op : Nutrient → Nutrient → Except PyErr Nutrient}
    {a b : List Nutrient} {keys : List String} {r : List Nutrient}
    (hop : ∀ x y z, op x y = .ok z → z.abbr = x.abbr)
    (hnd : keys.Nodup)
    (h : (combineMatched op a b keys >>= mkNutrients) = .ok r) :
    abbrs r = keys ∧
    (∀ k x y, lookupAbbr a k = some x → lookupAbbr b k = some y → k ∈ keys →
      ∃ z, lookupAbbr r k = some z ∧ op x y = .ok z) := by
  cases hc : combineMatched op a b keys with
  | error e => rw [hc, errBind] at h; exact absurd h (by simp)
  | ok news =>
    rw [hc, okBind] at h
    obtain ⟨habbrs, hlook⟩ := combineMatched_ok_spec hop hnd hc
    rw [mkNutrients_self (habbrs ▸ hnd)] at h
    injection h with h
    subst h
    exact ⟨habbrs, hlook⟩

theorem combineMk_ok {op : Nutrient → Nutrient → Except PyErr Nutrient}
    {a b : List Nutrient} {keys : List String}
    (hop : ∀ x y z, op x y = .ok z → z.abbr = x.abbr)
    (hnd : keys.Nodup)
    (hsucc : ∀ k ∈ keys, ∃ x y z, lookupAbbr a k = some x ∧
      lookupAbbr b k = some y ∧ op x y = .ok z) :
    ∃ r, (combineMatched op a b keys >>= mkNutrients) = .ok r := by
  obtain ⟨news, hnews⟩ := mapExcept_ok_of_forall
    (f := fun abbr =>
      match lookupAbbr a abbr, lookupAbbr b abbr with
      | some x, some y => op x y
      | _, _ => .error .keyError)
    (l := keys)
    (by
      intro k hk
      obtain ⟨x, y, z, hx, hy, hz⟩ := hsucc k hk
      refine ⟨z, ?_⟩
      show (match lookupAbbr a k, lookupAbbr b k with
        | some x, some y => op x y
        | _, _ => .error .keyError) = .ok z
      rw [hx, hy]
      exact hz)
  have hc : combineMatched op a b keys = .ok news := hnews
  obtain ⟨habbrs, -⟩ := combineMatched_ok_spec hop hnd hc
  refine ⟨news, ?_⟩
  rw [hc, okBind, mkNutrients_self (habbrs ▸ hnd)]

theorem mapExcept_abbrs {f : Nutrient → Except PyErr Nutrient}
    {l news : List Nutrient}
    (hf : ∀ x y, f x = .ok y → y.abbr = x.abbr)
    (h : mapExcept f l = .ok news) : abbrs news = abbrs l := by
  have h2 := mapExcept_ok_forall h
  clear h
  induction h2 with
  | nil => rfl
  | cons hxy _ ih =>
    simp only [abbrs, List.map_cons] at ih ⊢
    rw [hf _ _ hxy, ih]

/-! ## Amount lemmas -/

theorem factor_pos : ∀ u : MUnit, 0 < u.factor := by
  intro u
  cases u <;> norm_num [MUnit.factor]

theorem find_target_unit_factor {a b : Amount} :
    (find_target_unit a b).factor = max a.unit.factor b.unit.factor := by
  simp only [find_target_unit]
  by_cases h : b.unit.factor ≤ a.unit.factor
  · rw [if_pos h, max_eq_left h]
  · rw [if_neg h, max_eq_right (le_of_not_le h)]

theorem find_target_unit_dim {a b : Amount} (h : a.unit.dim = b.unit.dim) :
    (find_target_unit a b).dim = a.unit.dim := by
  simp only [find_target_unit]
  by_cases hle : b.unit.factor ≤ a.unit.factor
  · rw [if_pos hle]
  · rw [if_neg hle, h]

theorem convert_ok {a : Amount} {t : MUnit} (h : a.unit.dim = t.dim) :
    a.convert t = .ok ⟨a.value * (a.unit.factor / t.factor), t⟩ := by
  simp [Amount.convert, h]

theorem add_amount_ok {a b : Amount} (h : a.unit.dim = b.unit.dim) :
    a.add b = .ok ⟨a.value * (a.unit.factor / (find_target_unit a b).factor)
                   + b.value * (b.unit.factor / (find_target_unit a b).factor),
                   find_target_unit a b⟩ := by
  have hd1 : a.unit.dim = (find_target_unit a b).dim := (find_target_unit_dim h).symm
  have hd2 : b.unit.dim = (find_target_unit a b).dim := by
    rw [← h]
    exact hd1
  have hchk : a.type_check b = .ok () := by simp [Amount.type_check, h]
  simp only [Amount.add, hchk, okBind, convert_ok hd1, convert_ok hd2]

theorem sub_amount_ok {a b : Amount} (h : a.unit.dim = b.unit.dim) :
    a.sub b = .ok ⟨a.value * (a.unit.factor / (find_target_unit a b).factor)
                   - b.value * (b.unit.factor / (find_target_unit a b).factor),
                   find_target_unit a b⟩ := by
  have hd1 : a.unit.dim = (find_target_unit a b).dim := (find_target_unit_dim h).symm
  have hd2 : b.unit.dim = (find_target_unit a b).dim := by
    rw [← h]
    exact hd1
  have hchk : a.type_check b = .ok () := by simp [Amount.type_check, h]
  simp only [Amount.sub, hchk, okBind, convert_ok hd1, convert_ok hd2]

theorem add_amount_dim {a b c : Amount} (h : a.add b = .ok c) :
    a.unit.dim = b.unit.dim := by
  by_contra hne
  simp [Amount.add, Amount.type_check, hne, errBind] at h

theorem add_amount_phys {a b c : Amount} (h : a.add b = .ok c) :
    c.phys = a.phys + b.phys ∧ c.unit = find_target_unit a b := by
  have hd := add_amount_dim h
  rw [add_amount_ok hd] at h
  injection h with h
  subst h
  have ht : (find_target_unit a b).factor ≠ 0 := ne_of_gt (factor_pos _)
  constructor
  · show (a.value * (a.unit.factor / (find_target_unit a b).factor)
        + b.value * (b.unit.factor / (find_target_unit a b).factor))
        * (find_target_unit a b).factor
      = a.value * a.unit.factor + b.value * b.unit.factor
    field_simp
  · rfl

theorem sub_amount_dim {a b c : Amount} (h : a.sub b = .ok c) :
    a.unit.dim = b.unit.dim := by
  by_contra hne
  simp [Amount.sub, Amount.type_check, hne, errBind] at h

theorem sub_amount_phys {a b c : Amount} (h : a.sub b = .ok c) :
    c.phys = a.phys - b.phys ∧ c.unit = find_target_unit a b := by
  have hd := sub_amount_dim h
  rw [sub_amount_ok hd] at h
  injection h with h
  subst h
  have ht : (find_target_unit a b).factor ≠ 0 := ne_of_gt (factor_pos _)
  constructor
  · show (a.value * (a.unit.factor / (find_target_unit a b).factor)
        - b.value * (b.unit.factor / (find_target_unit a b).factor))
        * (find_target_unit a b).factor
      = a.value * a.unit.factor - b.value * b.unit.factor
    field_simp
  · rfl

/-! ## Component lemmas -/

theorem hasKey_append {a b : List (String × Component)} {k : String} :
    hasKey (a ++ b) k = (hasKey a k || hasKey b k) := by
  induction a with
  | nil => simp [hasKey]
  | cons p rest ih =>
    by_cases hk : p.1 = k
    · simp [hasKey, hk]
    · simp [hasKey, hk, ih]

theorem insertChildren_fresh : ∀ {cs : List Component} {fuel : Nat}
    {assoc : List (String × Component)},
    (∀ c ∈ cs, hasKey assoc c.name = false) → (cs.map Component.name).Nodup →
    insertChildren fuel assoc cs = .ok (assoc ++ cs.map (fun c => (c.name, c))) := by
  intro cs
  induction cs with
  | nil =>
    intro fuel assoc _ _
    simp [insertChildren]
  | cons c rest ih =>
    intro fuel assoc hfresh hnd
    simp only [List.map_cons, List.nodup_cons] at hnd
    have hc : hasKey assoc c.name = false := hfresh c (by simp)
    simp only [insertChildren, hc, Bool.false_eq_true, if_false, okBind, okMap, errMap]
    have step : ∀ c' ∈ rest, hasKey (assoc ++ [(c.name, c)]) c'.name = false := by
      intro c' hc'
      rw [hasKey_append]
      have h1 : hasKey assoc c'.name = false := hfresh c' (by simp [hc'])
      have h2 : hasKey [(c.name, c)] c'.name = false := by
        simp only [hasKey]
        have : c.name ≠ c'.name := by
          intro hcontr
          exact hnd.1 (hcontr ▸ List.mem_map_of_mem Component.name hc')
        rw [if_neg this]
      rw [h1, h2]
      rfl
    rw [ih step hnd.2]
    simp

theorem mkBasket_ok_spec {fuel : Nat} {n u : String} {cs : List Component}
    {r : Component} (h : mkBasket fuel n u cs = .ok r) :
    ∃ assoc ns, insertChildren fuel [] cs = .ok assoc ∧
      computeNutrition assoc = .ok ns ∧
      r = .basket n u assoc (computeValue assoc) ns := by
  simp only [mkBasket] at h
  cases hi : insertChildren fuel [] cs with
  | error e => rw [hi, errBind] at h; exact absurd h (by simp)
  | ok assoc =>
    rw [hi, okBind] at h
    cases hn : computeNutrition assoc with
    | error e => rw [hn, errBind] at h; exact absurd h (by simp)
    | ok ns =>
      rw [hn, okBind] at h
      injection h with h
      exact ⟨assoc, ns, rfl, hn, h.symm⟩

theorem mkMeal_ok_spec {fuel : Nat} {n : String} {cs : List Component}
    {u : String} {meta : List (String × String)} {r : Component}
    (h : mkMeal fuel n cs u meta = .ok r) :
    ∃ assoc ns, insertChildren fuel [] cs = .ok assoc ∧
      computeNutrition assoc = .ok ns ∧
      r = .meal n u assoc (computeValue assoc) ns meta := by
  simp only [mkMeal] at h
  cases hi : insertChildren fuel [] cs with
  | error e => rw [hi, errBind] at h; exact absurd h (by simp)
  | ok assoc =>
    rw [hi, okBind] at h
    cases hn : computeNutrition assoc with
    | error e => rw [hn, errBind] at h; exact absurd h (by simp)
    | ok ns =>
      rw [hn, okBind] at h
      injection h with h
      exact ⟨assoc, ns, rfl, hn, h.symm⟩

theorem mkBasket_invariant {fuel : Nat} {n u : String} {cs : List Component}
    {r : Component} (h : mkBasket fuel n u cs = .ok r) : derivedInvariant r := by
  obtain ⟨assoc, ns, -, hn, hr⟩ := mkBasket_ok_spec h
  subst hr
  exact ⟨hn, rfl⟩

theorem mkMeal_invariant {fuel : Nat} {n : String} {cs : List Component}
    {u : String} {meta : List (String × String)} {r : Component}
    (h : mkMeal fuel n cs u meta = .ok r) : derivedInvariant r := by
  obtain ⟨assoc, ns, -, hn, hr⟩ := mkMeal_ok_spec h
  subst hr
  exact ⟨hn, rfl⟩

theorem foldl_add_init {α : Type} (f : α → ℚ) :
    ∀ (l : List α) (i : ℚ), l.foldl (fun acc x => acc + f x) i = i + (l.map f).sum := by
  intro l
  induction l with
  | nil => intro i; simp
  | cons x xs ih =>
    intro i
    simp only [List.foldl_cons, List.map_cons, List.sum_cons, ih]
    ring

theorem computeValue_eq_sum {assoc : List (String × Component)} :
    computeValue assoc = (assoc.map (fun p => p.2.valueOf)).sum := by
  simpa using foldl_add_init (fun p : String × Component => p.2.valueOf) assoc 0

theorem sumValues_eq_sum {cs : List Component} :
    sumValues cs = (cs.map Component.valueOf).sum := by
  simpa using foldl_add_init Component.valueOf cs 0

theorem computeValue_named {cs : List Component} :
    computeValue (cs.map (fun c => (c.name, c))) = sumValues cs := by
  rw [computeValue_eq_sum, sumValues_eq_sum, List.map_map]
  rfl

theorem componentAdd_invariant {fuel : Nat} {a b r : Component}
    (h : componentAdd fuel a b = .ok r) : derivedInvariant r := by
  cases fuel with
  | zero => simp [componentAdd] at h
  | succ fuel =>
    cases a with
    | ingredient n v u ns meta =>
      cases b with
      | ingredient n' v' u' ns' meta' =>
        simp only [componentAdd] at h
        by_cases hc : metaEq meta meta' = true ∧ n = n' ∧ u = u'
        · rw [if_pos hc] at h
          cases hs : nutrientsAddIntersect_composite ns ns' with
          | error e => rw [hs, errBind] at h; exact absurd h (by simp)
          | ok s =>
            rw [hs, okBind] at h
            injection h with h
            subst h
            trivial
        · rw [if_neg hc] at h
          exact mkBasket_invariant h
      | basket n' u' cs' v' ns' =>
        simp only [componentAdd] at h
        exact mkBasket_invariant h
      | meal n' u' cs' v' ns' meta' =>
        simp only [componentAdd] at h
        exact mkBasket_invariant h
    | basket nb ub csb vb nsb =>
      cases b with
      | ingredient n' v' u' ns' meta' =>
        simp only [componentAdd] at h
        exact mkBasket_invariant h
      | basket n' u' cs' v' ns' =>
        simp only [componentAdd] at h
        exact mkBasket_invariant h
      | meal n' u' cs' v' ns' meta' =>
        simp only [componentAdd] at h
        exact mkBasket_invariant h
    | meal nm um csm vm nsm metam =>
      cases b with
      | ingredient n' v' u' ns' meta' =>
        simp only [componentAdd] at h
        exact mkBasket_invariant h
      | basket n' u' cs' v' ns' =>
        simp only [componentAdd] at h
        exact mkBasket_invariant h
      | meal n' u' cs' v' ns' meta' =>
        simp only [componentAdd] at h
        exact mkBasket_invariant h

theorem componentMul_invariant {fuel : Nat} {c : Component} {q : ℚ} {r : Component}
    (h : componentMul fuel c q = .ok r) : derivedInvariant r := by
  cases fuel with
  | zero => simp [componentMul] at h
  | succ fuel =>
    cases c with
    | ingredient n v u ns meta =>
      simp only [componentMul] at h
      split at h
      · exact absurd h (by simp)
      · cases hs : nutrientsMul ns q with
        | error e => rw [hs, errBind] at h; exact absurd h (by simp)
        | ok ns' =>
          rw [hs, okBind] at h
          injection h with h
          subst h
          trivial
    | basket n u assoc v ns =>
      simp only [componentMul] at h
      split at h
      · exact absurd h (by simp)
      · cases hm : mapExcept (fun p => componentMul fuel p.2 q) assoc with
        | error e => rw [hm, errBind] at h; exact absurd h (by simp)
        | ok cs =>
          rw [hm, okBind] at h
          exact mkBasket_invariant h
    | meal n u assoc v ns meta =>
      simp only [componentMul] at h
      split at h
      · exact absurd h (by simp)
      · cases hm : mapExcept (fun p => componentMul fuel p.2 q) assoc with
        | error e => rw [hm, errBind] at h; exact absurd h (by simp)
        | ok cs =>
          rw [hm, okBind] at h
          exact mkMeal_invariant h

theorem componentDiv_invariant {fuel : Nat} {c : Component} {q : ℚ} {r : Component}
    (h : componentDiv fuel c q = .ok r) : derivedInvariant r := by
  cases fuel with
  | zero => simp [componentDiv] at h
  | succ fuel =>
    cases c with
    | ingredient n v u ns meta =>
      simp only [componentDiv] at h
      split at h
      · exact absurd h (by simp)
      · cases hs : nutrientsTruediv_composite ns (.scalar q) with
        | error e => rw [hs, errBind] at h; exact absurd h (by simp)
        | ok ns' =>
          rw [hs, okBind] at h
          injection h with h
          subst h
          trivial
    | basket n u assoc v ns =>
      simp only [componentDiv] at h
      split at h
      · exact absurd h (by simp)
      · cases hm : mapExcept (fun p => componentDiv fuel p.2 q) assoc with
        | error e => rw [hm, errBind] at h; exact absurd h (by simp)
        | ok cs =>
          rw [hm, okBind] at h
          exact mkBasket_invariant h
    | meal n u assoc v ns meta =>
      simp only [componentDiv] at h
      split at h
      · exact absurd h (by simp)
      · cases hm : mapExcept (fun p => componentDiv fuel p.2 q) assoc with
        | error e => rw [hm, errBind] at h; exact absurd h (by simp)
        | ok cs =>
          rw [hm, okBind] at h
          exact mkMeal_invariant h

theorem addChildren_invariant {fuel : Nat} {c : Component} {cs : List Component}
    {r : Component} (h : addChildren fuel c cs = .ok r) : derivedInvariant r := by
  cases c with
  | ingredient n v u ns meta => simp [addChildren] at h
  | basket n u assoc v ns =>
    simp only [addChildren] at h
    cases hi : insertChildren fuel assoc cs with
    | error e => rw [hi, errBind] at h; exact absurd h (by simp)
    | ok assoc' =>
      rw [hi, okBind] at h
      cases hn : computeNutrition assoc' with
      | error e => rw [hn, errBind] at h; exact absurd h (by simp)
      | ok ns' =>
        rw [hn, okBind] at h
        injection h with h
        subst h
        exact ⟨hn, rfl⟩
  | meal n u assoc v ns meta =>
    simp only [addChildren] at h
    cases hi : insertChildren fuel assoc cs with
    | error e => rw [hi, errBind] at h; exact absurd h (by simp)
    | ok assoc' =>
      rw [hi, okBind] at h
      cases hn : computeNutrition assoc' with
      | error e => rw [hn, errBind] at h; exact absurd h (by simp)
      | ok ns' =>
        rw [hn, okBind] at h
        injection h with h
        subst h
        exact ⟨hn, rfl⟩

theorem delChild_invariant {c : Component} {k : String} {r : Component}
    (h : delChild c k = .ok r) : derivedInvariant r := by
  cases c with
  | ingredient n v u ns meta =>
    simp only [delChild] at h
    split at h
    · injection h with h
      subst h
      trivial
    · exact absurd h (by simp)
  | basket n u assoc v ns =>
    simp only [delChild] at h
    split at h
    · cases hn : computeNutrition (removeKey assoc k) with
      | error e => rw [hn, errBind] at h; exact absurd h (by simp)
      | ok ns' =>
        rw [hn, okBind] at h
        injection h with h
        subst h
        exact ⟨hn, rfl⟩
    · exact absurd h (by simp)
  | meal n u assoc v ns meta =>
    simp only [delChild] at h
    split at h
    · cases hn : computeNutrition (removeKey assoc k) with
      | error e => rw [hn, errBind] at h; exact absurd h (by simp)
      | ok ns' =>
        rw [hn, okBind] at h
        injection h with h
        subst h
        exact ⟨hn, rfl⟩
    · exact absurd h (by simp)

theorem forall2_map_eq {α β γ : Type} {R : α → β → Prop} {f : α → γ} {g : β → γ}
    (hR : ∀ a b, R a b → g b = f a) :
    ∀ {l1 : List α} {l2 : List β}, List.Forall₂ R l1 l2 → l2.map g = l1.map f := by
  intro l1 l2 h
  induction h with
  | nil => rfl
  | cons hab _ ihm => simp [hR _ _ hab, ihm]

theorem componentMul_scales : ∀ {fuel : Nat} {c : Component} {k : ℚ} {c' : Component},
    WfN c → componentMul fuel c k = .ok c' →
    c'.name = c.name ∧ c'.valueOf = c.valueOf * k := by
  intro fuel
  induction fuel with
  | zero =>
    intro c k c' _ h
    simp [componentMul] at h
  | succ fuel ih =>
    intro c k c' hwf h
    cases c with
    | ingredient n v u ns meta =>
      simp only [componentMul] at h
      split at h
      · exact absurd h (by simp)
      · cases hs : nutrientsMul ns k with
        | error e => rw [hs, errBind] at h; exact absurd h (by simp)
        | ok ns' =>
          rw [hs, okBind] at h
          injection h with h
          subst h
          exact ⟨rfl, rfl⟩
    | basket n u assoc v ns =>
      cases hwf with
      | basket hns hv hnd hch =>
        simp only [componentMul] at h
        split at h
        · exact absurd h (by simp)
        · cases hm : mapExcept (fun p => componentMul fuel p.2 k) assoc with
          | error e => rw [hm, errBind] at h; exact absurd h (by simp)
          | ok cs =>
            rw [hm, okBind] at h
            have hrel : List.Forall₂ (fun (p : String × Component) (q : Component) =>
                q.name = p.2.name ∧ q.valueOf = p.2.valueOf * k) assoc cs := by
              have hf2 := mapExcept_ok_forall hm
              clear hm h hns hv hnd
              revert hch
              induction hf2 with
              | nil => intro _; exact .nil
              | cons hpq htail ihf =>
                intro hch
                refine .cons (ih (hch _ (List.mem_cons_self _ _)) hpq)
                  (ihf (fun p' hp' => hch p' (List.mem_cons_of_mem _ hp')))
            have hnames : cs.map Component.name = assoc.map (fun p => p.2.name) :=
              forall2_map_eq (fun _ _ hab => hab.1) hrel
            have hfresh : insertChildren fuel [] cs = .ok (cs.map (fun c => (c.name, c))) :=
              insertChildren_fresh (fun _ _ => rfl) (hnames ▸ hnd)
            obtain ⟨assoc', ns', hi, hn, hr⟩ := mkBasket_ok_spec h
            rw [hfresh] at hi
            injection hi with hi
            subst hi
            subst hr
            refine ⟨rfl, ?_⟩
            show computeValue (cs.map fun c => (c.name, c)) = v * k
            rw [computeValue_named, sumValues_eq_sum,
              forall2_map_eq (fun _ _ hab => hab.2) hrel, List.sum_map_mul_right, hv,
              computeValue_eq_sum]
    | meal n u assoc v ns meta =>
      cases hwf with
      | meal hns hv hnd hch =>
        simp only [componentMul] at h
        split at h
        · exact absurd h (by simp)
        · cases hm : mapExcept (fun p => componentMul fuel p.2 k) assoc with
          | error e => rw [hm, errBind] at h; exact absurd h (by simp)
          | ok cs =>
            rw [hm, okBind] at h
            have hrel : List.Forall₂ (fun (p : String × Component) (q : Component) =>
                q.name = p.2.name ∧ q.valueOf = p.2.valueOf * k) assoc cs := by
              have hf2 := mapExcept_ok_forall hm
              clear hm h hns hv hnd
              revert hch
              induction hf2 with
              | nil => intro _; exact .nil
              | cons hpq htail ihf =>
                intro hch
                refine .cons (ih (hch _ (List.mem_cons_self _ _)) hpq)
                  (ihf (fun p' hp' => hch p' (List.mem_cons_of_mem _ hp')))
            have hnames : cs.map Component.name = assoc.map (fun p => p.2.name) :=
              forall2_map_eq (fun _ _ hab => hab.1) hrel
            have hfresh : insertChildren fuel [] cs = .ok (cs.map (fun c => (c.name, c))) :=
              insertChildren_fresh (fun _ _ => rfl) (hnames ▸ hnd)
            obtain ⟨assoc', ns', hi, hn, hr⟩ := mkMeal_ok_spec h
            rw [hfresh] at hi
            injection hi with hi
            subst hi
            subst hr
            refine ⟨rfl, ?_⟩
            show computeValue (cs.map fun c => (c.name, c)) = v * k
            rw [computeValue_named, sumValues_eq_sum,
              forall2_map_eq (fun _ _ hab => hab.2) hrel, List.sum_map_mul_right, hv,
              computeValue_eq_sum]

theorem lookupAbbr_mem_abbrs {ns : List Nutrient} {k : String} {x : Nutrient}
    (h : lookupAbbr ns k = some x) : k ∈ abbrs ns := by
  rw [← lookupAbbr_some_abbr h]
  exact List.mem_map_of_mem Nutrient.abbr (lookupAbbr_some_mem h)

theorem nutrientsAdd_nutrientpy_def {a b : List Nutrient} :
    nutrientsAdd_nutrientpy a b =
      (combineMatched Nutrient.add a b (key_matching (abbrs a) (abbrs b)) >>=
        mkNutrients) := rfl

theorem nutrientsSub_nutrientpy_def {a b : List Nutrient} :
    nutrientsSub_nutrientpy a b =
      (combineMatched Nutrient.sub_nutrientpy a b (key_matching (abbrs a) (abbrs b)) >>=
        mkNutrients) := rfl

theorem nutrientsAddIntersect_composite_def {a b : List Nutrient} :
    nutrientsAddIntersect_composite a b =
      (combineMatched Nutrient.add a b (interKeys a b) >>= mkNutrients) := rfl

theorem nutrientsSubIntersect_composite_def {a b : List Nutrient} :
    nutrientsSubIntersect_composite a b =
      (combineMatched Nutrient.sub_composite a b (interKeys a b) >>= mkNutrients) := rfl

/-! ## Claim C4 — division by a zero-valued divisor -/

/-- C4 counterexample: the claim says a Nutrient divided by a same-identity
Nutrient whose value is exactly zero fails with a division-by-zero error
that propagates and is never silently swallowed.  In the cited nutrient.py
revision, this division instead returns normally — the `ZeroDivisionError`
is caught and a NaN-valued dimensionless nutrient is the result — so at this
concrete input the operation succeeds and the error is swallowed. -/
theorem C4_counterexample :
    Nutrient.truediv_nut_nutrientpy (protein 5) (protein 0) =
      .ok { name := "Protein", value? := none, unit := "", abbr := "PROCNT",
            source := ["usda"], name_source := "usda" } ∧
    (protein 0).value = 0 := by
  constructor
  · norm_num +decide [Nutrient.truediv_nut_nutrientpy, Nutrient.type_test, protein, okBind, okMap, errMap]
  · rfl

/-- C4 (amended): dividing an Amount by an equal-dimension Amount of value
exactly zero fails with `ZeroDivisionError` and propagates, and so does
dividing a Nutrient by a zero-valued same-identity Nutrient in the
composite.py revision; but the nutrient.py revision of the Nutrient division
catches the error and returns a NaN-valued dimensionless nutrient instead of
propagating it. -/
theorem C4_division_by_zero_amended :
    (∀ a b : Amount, a.unit.dim = b.unit.dim → b.value = 0 →
      a.truediv_amount b = .error .zeroDivisionError) ∧
    (∀ x y : Nutrient, x.name = y.name → x.abbr = y.abbr → x.unit = y.unit →
      y.value = 0 → Nutrient.truediv_nut_composite x y = .error .zeroDivisionError) ∧
    (∀ x y : Nutrient, x.name = y.name → x.abbr = y.abbr → x.unit = y.unit →
      y.value = 0 →
      Nutrient.truediv_nut_nutrientpy x y =
        .ok { name := x.name, value? := none, unit := "", abbr := x.abbr,
              source := x.source, name_source := x.name_source }) := by
  refine ⟨?_, ?_, ?_⟩
  · intro a b h hb
    have hd1 : a.unit.dim = (find_target_unit a b).dim := (find_target_unit_dim h).symm
    have hd2 : b.unit.dim = (find_target_unit a b).dim := by
      rw [← h]
      exact hd1
    have hchk : a.type_check b = .ok () := by simp [Amount.type_check, h]
    simp only [Amount.truediv_amount, hchk, okBind, convert_ok hd1, convert_ok hd2, hb]
    norm_num
  · intro x y h1 h2 h3 hy
    simp only [Nutrient.truediv_nut_composite, type_test_ok_iff.mpr ⟨h1, h2, h3⟩,
      okBind, if_pos hy]
  · intro x y h1 h2 h3 hy
    simp only [Nutrient.truediv_nut_nutrientpy, type_test_ok_iff.mpr ⟨h1, h2, h3⟩,
      okBind, if_pos hy]

/-- C4 witness: the amended theorem applied at concrete inputs. -/
theorem C4_division_by_zero_amended_witness :
    Amount.truediv_amount ⟨10, .g⟩ ⟨0, .mg⟩ = .error .zeroDivisionError ∧
    Nutrient.truediv_nut_composite (protein 5) (protein 0) = .error .zeroDivisionError :=
  ⟨C4_division_by_zero_amended.1 ⟨10, .g⟩ ⟨0, .mg⟩ rfl rfl,
   C4_division_by_zero_amended.2.1 (protein 5) (protein 0) rfl rfl rfl rfl⟩

/-! ## Claim C5 — mixed-unit Amount addition upconverts -/

/-- C5: for every two Amounts of equal dimension, addition and subtraction
succeed; the result is expressed in whichever of the two operands' units has
the larger scale factor and combines the converted values numerically
(exactly, as physical value); in particular
`Amount(10,'g') + Amount(10,'mg') = Amount(10.01,'g')`. -/
theorem C5_amount_upconvert_add :
    (∀ a b : Amount, a.unit.dim = b.unit.dim →
      a.add b = .ok ⟨a.value * (a.unit.factor / (find_target_unit a b).factor)
                     + b.value * (b.unit.factor / (find_target_unit a b).factor),
                     find_target_unit a b⟩ ∧
      (find_target_unit a b).factor = max a.unit.factor b.unit.factor ∧
      (∀ c, a.add b = .ok c → c.phys = a.phys + b.phys)) ∧
    (∀ a b : Amount, a.unit.dim = b.unit.dim →
      a.sub b = .ok ⟨a.value * (a.unit.factor / (find_target_unit a b).factor)
                     - b.value * (b.unit.factor / (find_target_unit a b).factor),
                     find_target_unit a b⟩ ∧
      (find_target_unit a b).factor = max a.unit.factor b.unit.factor ∧
      (∀ c, a.sub b = .ok c → c.phys = a.phys - b.phys)) ∧
    Amount.add ⟨10, .g⟩ ⟨10, .mg⟩ = .ok ⟨1001/100, .g⟩ := by
  refine ⟨?_, ?_, ?_⟩
  · intro a b h
    exact ⟨add_amount_ok h, find_target_unit_factor,
      fun c hc => (add_amount_phys hc).1⟩
  · intro a b h
    exact ⟨sub_amount_ok h, find_target_unit_factor,
      fun c hc => (sub_amount_phys hc).1⟩
  · norm_num +decide [Amount.add, Amount.type_check, Amount.convert, find_target_unit,
      MUnit.factor, MUnit.dim, okBind, okMap, errMap]

/-- C5 witness: the general part applied at a concrete length-dimension
input. -/
theorem C5_amount_upconvert_add_witness :
    Amount.add ⟨1, .m⟩ ⟨2, .cm⟩ =
      .ok ⟨(⟨1, .m⟩ : Amount).value
             * ((⟨1, .m⟩ : Amount).unit.factor / (find_target_unit ⟨1, .m⟩ ⟨2, .cm⟩).factor)
           + (⟨2, .cm⟩ : Amount).value
             * ((⟨2, .cm⟩ : Amount).unit.factor / (find_target_unit ⟨1, .m⟩ ⟨2, .cm⟩).factor),
           find_target_unit ⟨1, .m⟩ ⟨2, .cm⟩⟩ :=
  (C5_amount_upconvert_add.1 ⟨1, .m⟩ ⟨2, .cm⟩ rfl).1

/-! ## Claim C6 — commutativity of addition as physical value -/

/-- C6: addition is commutative as physical value: swapping the operands of
a successful Amount addition yields the same physical value; swapping the
operands of a successful Nutrient addition yields the same value, unit and
abbreviation; and swapping the operands of the intersect-policy Nutrients
addition yields a container with the same abbreviation keys and, entry by
entry, the same values. -/
theorem C6_addition_commutative :
    (∀ a b c c' : Amount, a.add b = .ok c → b.add a = .ok c' → c.phys = c'.phys) ∧
    (∀ x y z z' : Nutrient, Nutrient.add x y = .ok z → Nutrient.add y x = .ok z' →
      z.value = z'.value ∧ z.abbr = z'.abbr ∧ z.unit = z'.unit) ∧
    (∀ a b r r' : List Nutrient, nutrientsAdd_nutrientpy a b = .ok r →
      nutrientsAdd_nutrientpy b a = .ok r' →
      abbrs r = abbrs r' ∧
      (∀ k z z', lookupAbbr r k = some z → lookupAbbr r' k = some z' →
        z.value = z'.value)) := by
  refine ⟨?_, ?_, ?_⟩
  · intro a b c c' h h'
    rw [(add_amount_phys h).1, (add_amount_phys h').1]
    ring
  · intro x y z z' h h'
    obtain ⟨h1, h2, h3, hz⟩ := add_ok_spec h
    obtain ⟨-, -, -, hz'⟩ := add_ok_spec h'
    subst hz
    subst hz'
    exact ⟨add_comm x.value y.value, h2, h3⟩
  · intro a b r r' h h'
    rw [nutrientsAdd_nutrientpy_def] at h h'
    obtain ⟨habbrs, hlook⟩ :=
      combineMk_spec (fun _ _ _ => add_ok_abbr) key_matching_nodup h
    obtain ⟨habbrs', hlook'⟩ :=
      combineMk_spec (fun _ _ _ => add_ok_abbr) key_matching_nodup h'
    have hkeys : key_matching (abbrs a) (abbrs b) = key_matching (abbrs b) (abbrs a) :=
      key_matching_comm
    refine ⟨by rw [habbrs, habbrs', hkeys], ?_⟩
    intro k z z' hz hz'
    have hk : k ∈ key_matching (abbrs a) (abbrs b) := habbrs ▸ lookupAbbr_mem_abbrs hz
    have hka : k ∈ abbrs a := (mem_key_matching.mp hk).2.1
    have hkb : k ∈ abbrs b := (mem_key_matching.mp hk).2.2
    obtain ⟨x, hx⟩ := lookupAbbr_of_mem_abbrs hka
    obtain ⟨y, hy⟩ := lookupAbbr_of_mem_abbrs hkb
    obtain ⟨z1, hz1, hop1⟩ := hlook k x y hx hy hk
    obtain ⟨z1', hz1', hop1'⟩ := hlook' k y x hy hx (hkeys ▸ hk)
    rw [hz] at hz1
    rw [hz'] at hz1'
    injection hz1 with hz1
    injection hz1' with hz1'
    subst hz1
    subst hz1'
    obtain ⟨-, -, -, hzv⟩ := add_ok_spec hop1
    obtain ⟨-, -, -, hzv'⟩ := add_ok_spec hop1'
    rw [hzv, hzv']
    dsimp
    ring

/-- C6 witness: the Nutrients conjunct applied at concrete operands. -/
theorem C6_addition_commutative_witness :
    abbrs [{ name := "Carb", value := 5, unit := "g", abbr := "CBH",
             source := ["usda"], name_source := "usda" }] =
    abbrs [{ name := "Carb", value := 5, unit := "g", abbr := "CBH",
             source := ["usda"], name_source := "usda" }] :=
  (C6_addition_commutative.2.2 [protein 1, carb 2] [carb 3]
    [{ name := "Carb", value := 5, unit := "g", abbr := "CBH",
       source := ["usda"], name_source := "usda" }]
    [{ name := "Carb", value := 5, unit := "g", abbr := "CBH",
       source := ["usda"], name_source := "usda" }]
    (by norm_num +decide [nutrientsAdd_nutrientpy, combineMatched, key_matching, std_nut,
      mapExcept, abbrs, containsStr, lookupAbbr, Nutrient.add, Nutrient.type_test,
      protein, carb, sourceUnion, mkNutrients, foldExcept, addNutrientEntry, okBind, okMap, errMap])
    (by norm_num +decide [nutrientsAdd_nutrientpy, combineMatched, key_matching, std_nut,
      mapExcept, abbrs, containsStr, lookupAbbr, Nutrient.add, Nutrient.type_test,
      protein, carb, sourceUnion, mkNutrients, foldExcept, addNutrientEntry, okBind, okMap, errMap])).1

/-! ## Claim C3 — intersect policy keeps exactly the common abbreviations -/

/-- C3 counterexample: both operands contain the abbreviation WATER, yet the
nutrient.py revision's intersect addition returns the empty container: the
result's abbreviation set is not the set of abbreviations present in both
operands, because the matched keys are filtered through the fixed `std_nut`
canonical list, which does not contain WATER. -/
theorem C3_counterexample :
    nutrientsAdd_nutrientpy [water 1] [water 2] = .ok [] ∧
    hasAbbr [water 1] "WATER" = true ∧ hasAbbr [water 2] "WATER" = true := by
  refine ⟨?_, by decide, by decide⟩
  norm_num +decide [nutrientsAdd_nutrientpy, combineMatched, key_matching, std_nut,
    mapExcept, abbrs, containsStr, water, mkNutrients, foldExcept, okBind, okMap, errMap]

/-- C3 (amended): under the composite.py revision, the intersect-policy add
and sub produce exactly the abbreviations present in both operands, each
entry combining the two operands' matched entries; under the nutrient.py
revision, the result's abbreviations are additionally restricted to (and
ordered by) the canonical `std_nut` list. -/
theorem C3_intersect_keys_amended :
    (∀ a b r : List Nutrient, (abbrs a).Nodup →
      nutrientsAddIntersect_composite a b = .ok r →
      (∀ k, k ∈ abbrs r ↔ (k ∈ abbrs a ∧ k ∈ abbrs b)) ∧
      (∀ k x y, lookupAbbr a k = some x → lookupAbbr b k = some y →
        k ∈ abbrs a → k ∈ abbrs b →
        ∃ z, lookupAbbr r k = some z ∧ Nutrient.add x y = .ok z)) ∧
    (∀ a b r : List Nutrient, (abbrs a).Nodup →
      nutrientsSubIntersect_composite a b = .ok r →
      (∀ k, k ∈ abbrs r ↔ (k ∈ abbrs a ∧ k ∈ abbrs b)) ∧
      (∀ k x y, lookupAbbr a k = some x → lookupAbbr b k = some y →
        k ∈ abbrs a → k ∈ abbrs b →
        ∃ z, lookupAbbr r k = some z ∧ Nutrient.sub_composite x y = .ok z)) ∧
    (∀ a b r : List Nutrient,
      nutrientsAdd_nutrientpy a b = .ok r →
      (∀ k, k ∈ abbrs r ↔ (k ∈ std_nut ∧ k ∈ abbrs a ∧ k ∈ abbrs b)) ∧
      (∀ k x y, lookupAbbr a k = some x → lookupAbbr b k = some y →
        k ∈ std_nut → k ∈ abbrs a → k ∈ abbrs b →
        ∃ z, lookupAbbr r k = some z ∧ Nutrient.add x y = .ok z)) ∧
    (∀ a b r : List Nutrient,
      nutrientsSub_nutrientpy a b = .ok r →
      (∀ k, k ∈ abbrs r ↔ (k ∈ std_nut ∧ k ∈ abbrs a ∧ k ∈ abbrs b)) ∧
      (∀ k x y, lookupAbbr a k = some x → lookupAbbr b k = some y →
        k ∈ std_nut → k ∈ abbrs a → k ∈ abbrs b →
        ∃ z, lookupAbbr r k = some z ∧ Nutrient.sub_nutrientpy x y = .ok z)) := by
  refine ⟨?_, ?_, ?_, ?_⟩
  · intro a b r hnd h
    rw [nutrientsAddIntersect_composite_def] at h
    obtain ⟨habbrs, hlook⟩ :=
      combineMk_spec (fun _ _ _ => add_ok_abbr) (interKeys_nodup hnd) h
    refine ⟨fun k => by rw [habbrs, mem_interKeys], ?_⟩
    intro k x y hx hy hka hkb
    exact hlook k x y hx hy (mem_interKeys.mpr ⟨hka, hkb⟩)
  · intro a b r hnd h
    rw [nutrientsSubIntersect_composite_def] at h
    obtain ⟨habbrs, hlook⟩ :=
      combineMk_spec (fun _ _ _ => sub_composite_ok_abbr) (interKeys_nodup hnd) h
    refine ⟨fun k => by rw [habbrs, mem_interKeys], ?_⟩
    intro k x y hx hy hka hkb
    exact hlook k x y hx hy (mem_interKeys.mpr ⟨hka, hkb⟩)
  · intro a b r h
    rw [nutrientsAdd_nutrientpy_def] at h
    obtain ⟨habbrs, hlook⟩ :=
      combineMk_spec (fun _ _ _ => add_ok_abbr) key_matching_nodup h
    refine ⟨fun k => by rw [habbrs, mem_key_matching], ?_⟩
    intro k x y hx hy hks hka hkb
    exact hlook k x y hx hy (mem_key_matching.mpr ⟨hks, hka, hkb⟩)
  · intro a b r h
    rw [nutrientsSub_nutrientpy_def] at h
    obtain ⟨habbrs, hlook⟩ :=
      combineMk_spec (fun _ _ _ => sub_nutrientpy_ok_abbr) key_matching_nodup h
    refine ⟨fun k => by rw [habbrs, mem_key_matching], ?_⟩
    intro k x y hx hy hks hka hkb
    exact hlook k x y hx hy (mem_key_matching.mpr ⟨hks, hka, hkb⟩)

/-- C3 witness: the composite.py conjunct applied at concrete operands and
instantiated at the key PROCNT. -/
theorem C3_intersect_keys_amended_witness :
    "PROCNT" ∈ abbrs [{ name := "Protein", value := 3, unit := "g", abbr := "PROCNT",
                        source := ["usda"], name_source := "usda" }] ↔
      ("PROCNT" ∈ abbrs [protein 1, carb 2] ∧ "PROCNT" ∈ abbrs [protein 2]) :=
  ((C3_intersect_keys_amended.1 [protein 1, carb 2] [protein 2]
    [{ name := "Protein", value := 3, unit := "g", abbr := "PROCNT",
       source := ["usda"], name_source := "usda" }]
    (by decide)
    (by norm_num +decide [nutrientsAddIntersect_composite, combineMatched, interKeys,
      abbrs, hasAbbr, lookupAbbr, mapExcept, Nutrient.add, Nutrient.type_test, protein, carb,
      sourceUnion, containsStr, mkNutrients, foldExcept, addNutrientEntry, okBind, okMap, errMap])).1
    "PROCNT")

theorem mapExcept_ok_map {α β : Type} {f : α → Except PyErr β} {g : α → β}
    (hfg : ∀ x, f x = .ok (g x)) : ∀ l : List α, mapExcept f l = .ok (l.map g) := by
  intro l
  induction l with
  | nil => rfl
  | cons x xs ih =>
    show (do
      let y ← f x
      let ys ← mapExcept f xs
      (.ok (y :: ys) : Except PyErr (List β))) = _
    rw [hfg x, okBind, ih, okBind, List.map_cons]

/-! ## Claim C9 — Nutrients division: union unsupported, intersect partial -/

/-- C9 counterexample: the claim says division of a Nutrients by another
Nutrients under the intersect policy succeeds for every pair of operands; at
this concrete input (a matched divisor entry with value zero) the division
instead raises ZeroDivisionError. -/
theorem C9_counterexample :
    nutrientsTruediv_composite [protein 1] (.nuts [protein 0]) "intersect" =
      .error .zeroDivisionError := by
  norm_num +decide [nutrientsTruediv_composite, combineMatched, interKeys, abbrs, hasAbbr,
    lookupAbbr, mapExcept, Nutrient.truediv_nut_composite, Nutrient.type_test, protein,
    mkNutrients, foldExcept, okBind, errBind]

/-- C9 (amended): dividing a Nutrients by another Nutrients under the union
policy always fails (the code raises ValueError, the error the spec's
taxonomy names UnsupportedOperationError); dividing by a positive scalar
always succeeds, dividing every entry; and dividing by another Nutrients
under the intersect policy succeeds provided every matched pair of entries
passes the identity test and the divisor's matched values are nonzero (a
zero-valued matched divisor entry raises ZeroDivisionError instead, per the
C9 counterexample). -/
theorem C9_union_division_unsupported_amended :
    (∀ a b : List Nutrient,
      nutrientsTruediv_composite a (.nuts b) "union" = .error .valueError) ∧
    (∀ (a : List Nutrient) (q : ℚ), 0 < q → (abbrs a).Nodup →
      nutrientsTruediv_composite a (.scalar q) "intersect" =
        .ok (a.map (fun n => { name := n.name, value := n.value / q, unit := n.unit,
                               abbr := n.abbr, source := n.source,
                               name_source := n.name_source }))) ∧
    (∀ a b : List Nutrient, (abbrs a).Nodup →
      (∀ k x y, lookupAbbr a k = some x → lookupAbbr b k = some y →
        (x.name = y.name ∧ x.abbr = y.abbr ∧ x.unit = y.unit ∧ y.value ≠ 0)) →
      ∃ r, nutrientsTruediv_composite a (.nuts b) "intersect" = .ok r) := by
  refine ⟨?_, ?_, ?_⟩
  · intro a b
    simp [nutrientsTruediv_composite]
  · intro a q hq hnd
    have hstep : ∀ n : Nutrient, Nutrient.truediv_scalar n q =
        .ok { name := n.name, value := n.value / q, unit := n.unit,
              abbr := n.abbr, source := n.source, name_source := n.name_source } := by
      intro n
      simp only [Nutrient.truediv_scalar, if_neg (not_not_intro hq)]
    have hmap : mapExcept (fun n => Nutrient.truediv_scalar n q) a =
        .ok (a.map (fun n => { name := n.name, value := n.value / q, unit := n.unit,
                               abbr := n.abbr, source := n.source,
                               name_source := n.name_source })) :=
      mapExcept_ok_map hstep a
    have habbrs := mapExcept_abbrs (fun x y hy => by
      rw [hstep x] at hy
      injection hy with hy
      rw [← hy]) hmap
    simp only [nutrientsTruediv_composite, if_neg (not_not_intro hq), hmap, okBind, okMap, errMap]
    exact mkNutrients_self (habbrs ▸ hnd)
  · intro a b hnd hcompat
    have hok := @combineMk_ok Nutrient.truediv_nut_composite a b (interKeys a b)
      (fun _ _ _ => truediv_nut_composite_ok_abbr) (interKeys_nodup hnd) ?_
    · obtain ⟨r, hr⟩ := hok
      refine ⟨r, ?_⟩
      rw [show nutrientsTruediv_composite a (.nuts b) "intersect" =
        (combineMatched Nutrient.truediv_nut_composite a b (interKeys a b) >>= mkNutrients)
        from by simp [nutrientsTruediv_composite]]
      exact hr
    · intro k hk
      obtain ⟨hka, hkb⟩ := mem_interKeys.mp hk
      obtain ⟨x, hx⟩ := lookupAbbr_of_mem_abbrs hka
      obtain ⟨y, hy⟩ := lookupAbbr_of_mem_abbrs hkb
      obtain ⟨h1, h2, h3, h4⟩ := hcompat k x y hx hy
      refine ⟨x, y,
        { name := x.name, value := x.value / y.value, unit := " ",
          abbr := x.abbr, source := x.source, name_source := x.name_source },
        hx, hy, ?_⟩
      simp only [Nutrient.truediv_nut_composite, type_test_ok_iff.mpr ⟨h1, h2, h3⟩,
        okBind, if_neg h4]

/-- C9 witness: the scalar conjunct applied at a concrete container and
scalar. -/
theorem C9_union_division_unsupported_amended_witness :
    nutrientsTruediv_composite [protein 4] (.scalar 2) "intersect" =
      .ok ([protein 4].map (fun n => { name := n.name, value := n.value / 2, unit := n.unit,
                                       abbr := n.abbr, source := n.source,
                                       name_source := n.name_source })) :=
  C9_union_division_unsupported_amended.2.1 [protein 4] 2 (by norm_num) (by decide)

/-! ## Claim C1 — composite derivation invariant -/

/-- C1: after every successful mutating operation (adding children, deleting
a child) and every successful operation that builds a new composite
(component addition, scalar multiplication, scalar division), the resulting
basket's or meal's stored nutrients equal the intersect-policy sum of its
children's nutrients and its stored value equals the sum of its children's
values. -/
theorem C1_composite_derivation_invariant :
    (∀ (fuel : Nat) (c : Component) (cs : List Component) (r : Component),
      addChildren fuel c cs = .ok r → derivedInvariant r) ∧
    (∀ (c : Component) (k : String) (r : Component),
      delChild c k = .ok r → derivedInvariant r) ∧
    (∀ (fuel : Nat) (a b r : Component),
      componentAdd fuel a b = .ok r → derivedInvariant r) ∧
    (∀ (fuel : Nat) (c : Component) (q : ℚ) (r : Component),
      componentMul fuel c q = .ok r → derivedInvariant r) ∧
    (∀ (fuel : Nat) (c : Component) (q : ℚ) (r : Component),
      componentDiv fuel c q = .ok r → derivedInvariant r) :=
  ⟨fun _ _ _ _ h => addChildren_invariant h,
   fun _ _ _ h => delChild_invariant h,
   fun _ _ _ _ h => componentAdd_invariant h,
   fun _ _ _ _ h => componentMul_invariant h,
   fun _ _ _ _ h => componentDiv_invariant h⟩

/-- C1 witness: the add_children conjunct applied to a concrete basket. -/
theorem C1_composite_derivation_invariant_witness :
    derivedInvariant (.basket "B0" "g" [("A", ingA), ("B", ingB)] 100 (.nuts [protein 8])) :=
  C1_composite_derivation_invariant.1 3 (.basket "B0" "g" [] 0 .zero) [ingA, ingB]
    (Component.basket "B0" "g" [("A", ingA), ("B", ingB)] 100 (.nuts [protein 8]))
    (by norm_num +decide [addChildren, insertChildren, hasKey, updateChild, computeNutrition,
      computeValue, foldExcept, pyNutSumStep, Component.nutVal, Component.name,
      nutrientsAddIntersect_composite, combineMatched, interKeys, abbrs, hasAbbr, lookupAbbr,
      mapExcept, Nutrient.add, Nutrient.type_test, mkNutrients, addNutrientEntry, sourceUnion,
      containsStr, Component.valueOf, ingA, ingB, protein, carb, okBind, okMap, errMap])

/-! ## Claim C2 — meal ratio-locked scaling -/

/-- C2: scaling a well-formed MealComponent by a scalar multiplies every
child's quantity by the same factor (the children's relative proportions are
preserved) and the total by that factor; in particular converting the basket
with children A at 60 g and B at 40 g to a meal and scaling by 2 yields a
meal with A at 120 g, B at 80 g and total 200 g. -/
theorem C2_meal_ratio_scaling :
    (∀ (fuel : Nat) (n u : String) (assoc : List (String × Component)) (v : ℚ)
       (ns : PyNutSum) (meta : List (String × String)) (k : ℚ) (r : Component),
      WfN (.meal n u assoc v ns meta) →
      componentMul fuel (.meal n u assoc v ns meta) k = .ok r →
      r.valueOf = v * k ∧
      List.Forall₂ (fun (p q : String × Component) =>
        q.1 = p.2.name ∧ q.2.valueOf = p.2.valueOf * k) assoc r.childrenOf) ∧
    (do
      let b ← componentAdd 3 ingA ingB
      let m ← convert2meal 3 b "M"
      componentMul 3 m 2) =
      .ok (.meal "M" "g"
        [("A", .ingredient "A" 120 "g" [protein 10, carb 20] [("collection", "usda")]),
         ("B", .ingredient "B" 80 "g" [protein 6] [("collection", "usda")])]
        200 (.nuts [protein 16]) []) := by
  constructor
  · intro fuel n u assoc v ns meta k r hwf h
    cases fuel with
    | zero => simp [componentMul] at h
    | succ fuel =>
      cases hwf with
      | meal hns hv hnd hch =>
        simp only [componentMul] at h
        split at h
        · exact absurd h (by simp)
        · cases hm : mapExcept (fun p => componentMul fuel p.2 k) assoc with
          | error e => rw [hm, errBind] at h; exact absurd h (by simp)
          | ok cs =>
            rw [hm, okBind] at h
            have hrel : List.Forall₂ (fun (p : String × Component) (q : Component) =>
                q.name = p.2.name ∧ q.valueOf = p.2.valueOf * k) assoc cs := by
              have hf2 := mapExcept_ok_forall hm
              clear hm h hns hv hnd
              revert hch
              induction hf2 with
              | nil => intro _; exact .nil
              | cons hpq htail ihf =>
                intro hch
                refine .cons (componentMul_scales (hch _ (List.mem_cons_self _ _)) hpq)
                  (ihf (fun p' hp' => hch p' (List.mem_cons_of_mem _ hp')))
            have hnames : cs.map Component.name = assoc.map (fun p => p.2.name) :=
              forall2_map_eq (fun _ _ hab => hab.1) hrel
            have hfresh : insertChildren fuel [] cs = .ok (cs.map (fun c => (c.name, c))) :=
              insertChildren_fresh (fun _ _ => rfl) (hnames ▸ hnd)
            obtain ⟨assoc', ns', hi, hn, hr⟩ := mkMeal_ok_spec h
            rw [hfresh] at hi
            injection hi with hi
            subst hi
            subst hr
            constructor
            · show computeValue (cs.map fun c => (c.name, c)) = v * k
              rw [computeValue_named, sumValues_eq_sum,
                forall2_map_eq (fun _ _ hab => hab.2) hrel, List.sum_map_mul_right, hv,
                computeValue_eq_sum]
            · show List.Forall₂ _ assoc ((cs.map fun c => (c.name, c)))
              rw [List.forall₂_map_right_iff]
              exact hrel
  · have h1 : componentAdd 3 ingA ingB =
        .ok (.basket "MyBasket" "g" [("A", ingA), ("B", ingB)] 100 (.nuts [protein 8])) := by
      norm_num +decide [componentAdd, ingA, ingB, protein, carb, metaEq, containsPair, mkBasket,
        insertChildren, hasKey, updateChild, computeNutrition, computeValue, foldExcept,
        pyNutSumStep, Component.nutVal, Component.name, nutrientsAddIntersect_composite,
        combineMatched, interKeys, abbrs, hasAbbr, lookupAbbr, mapExcept, Nutrient.add,
        Nutrient.type_test, mkNutrients, addNutrientEntry, sourceUnion, containsStr,
        Component.valueOf, okBind, okMap, errMap]
    rw [h1, okBind]
    have h2 : convert2meal 3
        (.basket "MyBasket" "g" [("A", ingA), ("B", ingB)] 100 (.nuts [protein 8])) "M" =
        .ok (.meal "M" "g" [("A", ingA), ("B", ingB)] 100 (.nuts [protein 8]) []) := by
      norm_num +decide [convert2meal, mkMeal, insertChildren, hasKey, ingA, ingB, protein, carb,
        computeNutrition, computeValue, foldExcept, pyNutSumStep, Component.nutVal,
        Component.name, nutrientsAddIntersect_composite, combineMatched, interKeys, abbrs,
        hasAbbr, lookupAbbr, mapExcept, Nutrient.add, Nutrient.type_test, mkNutrients,
        addNutrientEntry, sourceUnion, containsStr, Component.valueOf, okBind, okMap, errMap]
    rw [h2, okBind]
    norm_num +decide [componentMul, mkMeal, insertChildren, hasKey, ingA, ingB, protein, carb,
      computeNutrition, computeValue, foldExcept, pyNutSumStep, Component.nutVal, Component.name,
      nutrientsAddIntersect_composite, combineMatched, interKeys, abbrs, hasAbbr, lookupAbbr,
      mapExcept, Nutrient.add, Nutrient.mul, nutrientsMul, Nutrient.type_test, mkNutrients,
      addNutrientEntry, sourceUnion, containsStr, Component.valueOf, okBind, okMap, errMap]

/-- C2 witness: the general conjunct applied to the concrete one-child meal,
projected to the scaled total. -/
theorem C2_meal_ratio_scaling_witness :
    (Component.meal "M" "g"
      [("A", .ingredient "A" 120 "g" [protein 10, carb 20] [("collection", "usda")])]
      120 (.nuts [protein 10, carb 20]) []).valueOf = 60 * 2 :=
  (C2_meal_ratio_scaling.1 3 "M" "g" [("A", ingA)] 60 (.nuts [protein 5, carb 10]) [] 2
    (.meal "M" "g"
      [("A", .ingredient "A" 120 "g" [protein 10, carb 20] [("collection", "usda")])]
      120 (.nuts [protein 10, carb 20]) [])
    (WfN.meal
      (by norm_num +decide [computeNutrition, foldExcept, pyNutSumStep, Component.nutVal,
        ingA, protein, carb, okBind, okMap, errMap])
      (by norm_num +decide [computeValue, Component.valueOf, ingA])
      (by decide)
      (by
        intro p hp
        simp only [List.mem_singleton] at hp
        subst hp
        exact WfN.ingredient))
    (by norm_num +decide [componentMul, mkMeal, insertChildren, hasKey, ingA, protein, carb,
      computeNutrition, computeValue, foldExcept, pyNutSumStep, Component.nutVal,
      Component.name, nutrientsAddIntersect_composite, combineMatched, interKeys, abbrs,
      hasAbbr, lookupAbbr, mapExcept, Nutrient.add, Nutrient.mul, nutrientsMul,
      Nutrient.type_test, mkNutrients, addNutrientEntry, sourceUnion, containsStr,
      Component.valueOf, okBind, okMap, errMap])).1

/-! ## Claim C7 — a Meal operand stays an opaque child of the new basket -/

theorem componentAdd_meal_eq {fuel : Nat} {a b : Component}
    (h : a.isMeal ∨ b.isMeal) :
    componentAdd (fuel+1) a b = mkBasket fuel "MyBasket" "g" (addChildArg a b) := by
  cases a with
  | ingredient n v u ns meta =>
    cases b with
    | ingredient n' v' u' ns' meta' => exact absurd h (by simp [Component.isMeal])
    | basket n' u' cs' v' ns' => exact absurd h (by simp [Component.isMeal])
    | meal n' u' cs' v' ns' meta' => simp [componentAdd, addChildArg]
  | basket nb ub csb vb nsb =>
    cases b with
    | ingredient n' v' u' ns' meta' => exact absurd h (by simp [Component.isMeal])
    | basket n' u' cs' v' ns' => exact absurd h (by simp [Component.isMeal])
    | meal n' u' cs' v' ns' meta' => simp [componentAdd, addChildArg]
  | meal nm um csm vm nsm metam =>
    cases b with
    | ingredient n' v' u' ns' meta' => simp [componentAdd, addChildArg]
    | basket n' u' cs' v' ns' => simp [componentAdd, addChildArg]
    | meal n' u' cs' v' ns' meta' => simp [componentAdd, addChildArg]

theorem meal_mem_addChildArg_left {a b : Component} (h : a.isMeal) :
    a ∈ addChildArg a b := by
  cases a with
  | ingredient n v u ns meta => exact absurd h (by simp [Component.isMeal])
  | basket n u cs v ns => exact absurd h (by simp [Component.isMeal])
  | meal n u cs v ns meta =>
    cases b <;> simp [addChildArg]

theorem meal_mem_addChildArg_right {a b : Component} (h : b.isMeal) :
    b ∈ addChildArg a b := by
  cases b with
  | ingredient n v u ns meta => exact absurd h (by simp [Component.isMeal])
  | basket n u cs v ns => exact absurd h (by simp [Component.isMeal])
  | meal n u cs v ns meta =>
    cases a <;> simp [addChildArg]

theorem ing_mem_addChildArg_left {a b : Component} (hm : a.isMeal ∨ b.isMeal)
    (h : a.isIngredient) : a ∈ addChildArg a b := by
  cases a with
  | ingredient n v u ns meta =>
    cases b with
    | ingredient n' v' u' ns' meta' => exact absurd hm (by simp [Component.isMeal])
    | basket n' u' cs' v' ns' => exact absurd hm (by simp [Component.isMeal])
    | meal n' u' cs' v' ns' meta' => simp [addChildArg]
  | basket n u cs v ns => exact absurd h (by simp [Component.isIngredient])
  | meal n u cs v ns meta => exact absurd h (by simp [Component.isIngredient])

theorem ing_mem_addChildArg_right {a b : Component} (hm : a.isMeal ∨ b.isMeal)
    (h : b.isIngredient) : b ∈ addChildArg a b := by
  cases b with
  | ingredient n' v' u' ns' meta' =>
    cases a with
    | ingredient n v u ns meta => exact absurd hm (by simp [Component.isMeal])
    | basket n u cs v ns => exact absurd hm (by simp [Component.isMeal])
    | meal n u cs v ns meta => simp [addChildArg]
  | basket n u cs v ns => exact absurd h (by simp [Component.isIngredient])
  | meal n u cs v ns meta => exact absurd h (by simp [Component.isIngredient])

/-- C7 counterexample: the claim says that whenever one operand of a
component addition is a Meal, the result contains both operands as opaque
children.  Adding the sample meal and the sample basket yields a basket
whose children are the meal and the basket's child ingredient: the basket
operand itself is flattened away and is not among the children. -/
theorem C7_counterexample :
    componentAdd 3 mealM basketB =
      .ok (.basket "MyBasket" "g" [("M", mealM), ("B", ingB)] 100 (.nuts [protein 8])) ∧
    mealM ≠ basketB ∧ ingB ≠ basketB := by
  refine ⟨?_, fun hc => Component.noConfusion hc, fun hc => Component.noConfusion hc⟩
  norm_num +decide [componentAdd, mealM, basketB, ingA, ingB, protein, carb, mkBasket,
    insertChildren, hasKey, updateChild, computeNutrition, computeValue, foldExcept,
    pyNutSumStep, Component.nutVal, Component.name, nutrientsAddIntersect_composite,
    combineMatched, interKeys, abbrs, hasAbbr, lookupAbbr, mapExcept, Nutrient.add,
    Nutrient.type_test, mkNutrients, addNutrientEntry, sourceUnion, containsStr,
    Component.valueOf, okBind, okMap, errMap]

/-- C7 (amended): whenever one operand of a successful component addition is
a Meal, the result is a new Basket named MyBasket; every Meal operand
appears in it, unchanged, as an opaque child keyed by its name — it is never
flattened into its descendants and is not mutated — and an Ingredient
co-operand likewise appears as an opaque, unchanged child; but a Basket
co-operand contributes its children rather than itself (provided the
constructed children names collide with nothing, so that no merge fires). -/
theorem C7_meal_opaque_amended :
    ∀ (fuel : Nat) (a b r : Component), (a.isMeal ∨ b.isMeal) →
      ((addChildArg a b).map Component.name).Nodup →
      componentAdd fuel a b = .ok r →
      r.isBasket ∧ r.name = "MyBasket" ∧
      (a.isMeal → (a.name, a) ∈ r.childrenOf) ∧
      (b.isMeal → (b.name, b) ∈ r.childrenOf) ∧
      (a.isIngredient → (a.name, a) ∈ r.childrenOf) ∧
      (b.isIngredient → (b.name, b) ∈ r.childrenOf) := by
  intro fuel a b r hm hnd h
  cases fuel with
  | zero => simp [componentAdd] at h
  | succ fuel =>
    rw [componentAdd_meal_eq hm] at h
    obtain ⟨assoc, ns, hi, hn, hr⟩ := mkBasket_ok_spec h
    have hfresh : insertChildren fuel [] (addChildArg a b) =
        .ok ([] ++ (addChildArg a b).map (fun c => (c.name, c))) :=
      insertChildren_fresh (fun _ _ => rfl) hnd
    rw [hfresh] at hi
    injection hi with hi
    subst hi
    subst hr
    refine ⟨trivial, rfl, ?_, ?_, ?_, ?_⟩
    · intro hma
      show (a.name, a) ∈ [] ++ (addChildArg a b).map (fun c => (c.name, c))
      rw [List.nil_append]
      exact List.mem_map_of_mem (fun c => (c.name, c)) (meal_mem_addChildArg_left hma)
    · intro hmb
      show (b.name, b) ∈ [] ++ (addChildArg a b).map (fun c => (c.name, c))
      rw [List.nil_append]
      exact List.mem_map_of_mem (fun c => (c.name, c)) (meal_mem_addChildArg_right hmb)
    · intro hia
      show (a.name, a) ∈ [] ++ (addChildArg a b).map (fun c => (c.name, c))
      rw [List.nil_append]
      exact List.mem_map_of_mem (fun c => (c.name, c)) (ing_mem_addChildArg_left hm hia)
    · intro hib
      show (b.name, b) ∈ [] ++ (addChildArg a b).map (fun c => (c.name, c))
      rw [List.nil_append]
      exact List.mem_map_of_mem (fun c => (c.name, c)) (ing_mem_addChildArg_right hm hib)

/-- C7 witness: the amended theorem applied to a concrete meal-plus-ingredient
addition; the result is named MyBasket and holds both the meal operand and
the ingredient co-operand as opaque children. -/
theorem C7_meal_opaque_amended_witness :
    (Component.basket "MyBasket" "g" [("M", mealM), ("B", ingB)] 100
      (.nuts [protein 8])).name = "MyBasket" ∧
    ("M", mealM) ∈ (Component.basket "MyBasket" "g" [("M", mealM), ("B", ingB)] 100
      (.nuts [protein 8])).childrenOf ∧
    ("B", ingB) ∈ (Component.basket "MyBasket" "g" [("M", mealM), ("B", ingB)] 100
      (.nuts [protein 8])).childrenOf := by
  have H := C7_meal_opaque_amended 3 mealM ingB
    (.basket "MyBasket" "g" [("M", mealM), ("B", ingB)] 100 (.nuts [protein 8]))
    (Or.inl trivial)
    (by decide)
    (by norm_num +decide [componentAdd, mealM, ingA, ingB, protein, carb, mkBasket,
      insertChildren, hasKey, updateChild, computeNutrition, computeValue, foldExcept,
      pyNutSumStep, Component.nutVal, Component.name, nutrientsAddIntersect_composite,
      combineMatched, interKeys, abbrs, hasAbbr, lookupAbbr, mapExcept, Nutrient.add,
      Nutrient.type_test, mkNutrients, addNutrientEntry, sourceUnion, containsStr,
      Component.valueOf, okBind, okMap, errMap])
  exact ⟨H.2.1, H.2.2.1 trivial, H.2.2.2.2.2 trivial⟩

/-! ## Claim C8 — same-identity ingredient merge -/

theorem metaEq_refl (m : List (String × String)) : metaEq m m = true := by
  have h : ∀ kv ∈ m, containsPair m kv = true := by
    intro kv hkv
    induction m with
    | nil => simp at hkv
    | cons p rest ih =>
      simp only [containsPair]
      by_cases hp : kv = p
      · rw [if_pos hp]
      · rw [if_neg hp]
        rcases List.mem_cons.mp hkv with hkv' | hkv'
        · exact absurd hkv' hp
        · exact ih hkv'
  simp only [metaEq, Bool.and_eq_true, List.all_eq_true]
  exact ⟨h, h⟩

/-- C8: adding two IngredientComponents with identical identity (equal name,
equal unit, Python-dict-equal metadata) yields a single IngredientComponent
whose value is the sum of the two values and whose nutrients are the
intersect-policy sum of the two operands' nutrients; the concrete protein
5 g / carb 10 g scenario doubles both entries and the quantity. -/
theorem C8_same_identity_ingredient_merge :
    (∀ (fuel : Nat) (n u : String) (meta meta' : List (String × String))
       (v v' : ℚ) (ns ns' s : List Nutrient),
      metaEq meta meta' = true →
      nutrientsAddIntersect_composite ns ns' = .ok s →
      componentAdd (fuel+1) (.ingredient n v u ns meta) (.ingredient n v' u ns' meta') =
        .ok (.ingredient n (v + v') u s meta)) ∧
    componentAdd 3 ingA ingA =
      .ok (.ingredient "A" 120 "g" [protein 10, carb 20] [("collection", "usda")]) := by
  constructor
  · intro fuel n u meta meta' v v' ns ns' s hmeta hs
    simp [componentAdd, hmeta, hs, okBind]
  · norm_num +decide [componentAdd, ingA, protein, carb, metaEq, containsPair,
      nutrientsAddIntersect_composite, combineMatched, interKeys, abbrs, hasAbbr, lookupAbbr,
      mapExcept, Nutrient.add, Nutrient.type_test, mkNutrients, foldExcept, addNutrientEntry,
      sourceUnion, containsStr, okBind, okMap, errMap]

/-- C8 witness: the general conjunct applied at concrete inputs. -/
theorem C8_same_identity_ingredient_merge_witness :
    componentAdd 1 (.ingredient "X" 7 "g" [protein 1] []) (.ingredient "X" 2 "g" [protein 2] []) =
      .ok (.ingredient "X" (7 + 2) "g"
        [{ name := "Protein", value := 3, unit := "g", abbr := "PROCNT",
           source := ["usda"], name_source := "usda" }] []) :=
  C8_same_identity_ingredient_merge.1 0 "X" "g" [] [] 7 2 [protein 1] [protein 2]
    [{ name := "Protein", value := 3, unit := "g", abbr := "PROCNT",
       source := ["usda"], name_source := "usda" }]
    (metaEq_refl [])
    (by norm_num +decide [nutrientsAddIntersect_composite, combineMatched, interKeys, abbrs,
      hasAbbr, lookupAbbr, mapExcept, Nutrient.add, Nutrient.type_test, protein, sourceUnion,
      containsStr, mkNutrients, foldExcept, addNutrientEntry, okBind, okMap, errMap])

/-! ## Claim C10 — ingredient subtraction adds the nutrients -/

/-- C10: subtracting an IngredientComponent with Python-dict-equal metadata
and no larger value returns an IngredientComponent whose value is the
difference of the values but whose nutrients field is the intersect-policy
SUM of both operands' nutrients (the code calls `+`, not `-`, on the two
Nutrients). -/
theorem C10_ingredient_sub_adds_nutrients :
    (∀ (n : String) (v : ℚ) (u : String) (ns : List Nutrient)
       (meta : List (String × String)) (n' : String) (v' : ℚ) (u' : String)
       (ns' : List Nutrient) (meta' : List (String × String)) (s : List Nutrient),
      metaEq meta meta' = true → v' ≤ v →
      nutrientsAddIntersect_composite ns ns' = .ok s →
      ingredientSub (.ingredient n v u ns meta) (.ingredient n' v' u' ns' meta') =
        .ok (.ingredient n (v - v') u s meta)) ∧
    ingredientSub ingA ingA =
      .ok (.ingredient "A" 0 "g" [protein 10, carb 20] [("collection", "usda")]) := by
  constructor
  · intro n v u ns meta n' v' u' ns' meta' s hmeta hv hs
    simp only [ingredientSub, hmeta, Bool.true_eq_false, if_false,
      if_neg (not_lt.mpr hv), hs, okBind]
  · norm_num +decide [ingredientSub, ingA, protein, carb, metaEq, containsPair,
      nutrientsAddIntersect_composite, combineMatched, interKeys, abbrs, hasAbbr, lookupAbbr,
      mapExcept, Nutrient.add, Nutrient.type_test, mkNutrients, foldExcept, addNutrientEntry,
      sourceUnion, containsStr, okBind, okMap, errMap]

/-- C10 witness: the general conjunct applied at concrete inputs. -/
theorem C10_ingredient_sub_adds_nutrients_witness :
    ingredientSub (.ingredient "A" 60 "g" [protein 5] [("collection", "usda")])
        (.ingredient "A" 40 "g" [protein 3] [("collection", "usda")]) =
      .ok (.ingredient "A" (60 - 40) "g"
        [{ name := "Protein", value := 8, unit := "g", abbr := "PROCNT",
           source := ["usda"], name_source := "usda" }] [("collection", "usda")]) :=
  C10_ingredient_sub_adds_nutrients.1 "A" 60 "g" [protein 5] [("collection", "usda")]
    "A" 40 "g" [protein 3] [("collection", "usda")]
    [{ name := "Protein", value := 8, unit := "g", abbr := "PROCNT",
       source := ["usda"], name_source := "usda" }]
    (metaEq_refl _) (by norm_num)
    (by norm_num +decide [nutrientsAddIntersect_composite, combineMatched, interKeys, abbrs,
      hasAbbr, lookupAbbr, mapExcept, Nutrient.add, Nutrient.type_test, protein, sourceUnion,
      containsStr, mkNutrients, foldExcept, addNutrientEntry, okBind, okMap, errMap])

end Ragdoll
